import Mathlib

/-!
Verification of the cotton ORM's mapping and state-tracking core.

The data model and operations below are a shallow embedding of the
repository's code.  `src/models/model.ts` is embedded directly; the helper
module `src/utils/models.ts` (relational result mapper and instance state
tracker) and `src/utils/number.ts` (`range`) are not part of the staged
sources — only their tests (`src/utils/models_test.ts`) and their caller
(`src/models/model.ts`) are — so those operations are modelled from the
specification's words and pinned against the test fixtures.
-/

namespace Cotton

/-- Runtime values a model field can hold.  JavaScript's `null` and
`undefined` are kept distinct (`vNull` / `vUndefined`); numbers are embedded
as integers (every value the claims exercise is integral); dates keep their
serialized string payload. -/
inductive Value where
  | vNull
  | vUndefined
  | vNum (n : Int)
  | vStr (s : String)
  | vBool (b : Bool)
  | vDate (s : String)
deriving DecidableEq, Repr

/-- Semantic field types (`FieldType` of `src/models/fields.ts`). -/
inductive FieldType where
  | number
  | string
  | boolean
  | date
deriving DecidableEq, Repr

/-- Modelled from the spec: numeric-string detection used by `normalize`
("numeric strings → numbers"); `src/utils/models.ts` is not under the staged
sources.  A non-empty all-digit string, optionally signed, parses to its
integer value. -/
def parseDigits (cs : List Char) : Option Nat :=
  if cs.isEmpty then none
  else if cs.all Char.isDigit then
    some (cs.foldl (fun n c => n * 10 + (c.toNat - 48)) 0)
  else none

def parseIntString (s : String) : Option Int :=
  match s.data with
  | '-' :: rest => (parseDigits rest).map (fun n => -(n : Int))
  | cs => (parseDigits cs).map (fun n => (n : Int))

/-- Modelled from the spec: `normalize` of `src/utils/models.ts` coerces a raw
value to the field's semantic type ("numeric strings → numbers, numeric 0/1 →
booleans, serialized date strings → Date values, other scalars → string via
textual conversion"); `null` and `undefined` are untouched. -/
def normalizeValue (t : FieldType) (v : Value) : Value :=
  match t, v with
  | _, .vNull => .vNull
  | _, .vUndefined => .vUndefined
  | .number, .vStr s =>
    match parseIntString s with
    | some n => .vNum n
    | none => .vStr s
  | .number, v => v
  | .string, .vNum n => .vStr (toString n)
  | .string, .vBool b => .vStr (if b then "true" else "false")
  | .string, v => v
  | .boolean, .vNum 0 => .vBool false
  | .boolean, .vNum 1 => .vBool true
  | .boolean, v => v
  | .date, .vStr s => .vDate s
  | .date, v => v

/-- A field descriptor, as `getColumns` of the source returns it
(see the `getColumns` test fixture in `src/utils/models_test.ts`).
`name` is the database column name, defaulting to `propertyKey`;
the optional declared default is `defaultValue`. -/
structure FieldDescriptor where
  propertyKey : String
  name : String
  type : FieldType
  isPrimaryKey : Bool
  isNullable : Bool
  defaultValue : Option Value
  select : Bool
deriving DecidableEq, Repr

/-- A model's registered metadata: resolved table name and ordered field
descriptors. -/
structure ModelSchema where
  tableName : String
  fields : List FieldDescriptor
deriving DecidableEq, Repr

/-- `RelationType` of `src/models/fields.ts`. -/
inductive RelationType where
  | hasMany
  | belongsTo
deriving DecidableEq, Repr

/-- A relation descriptor, as `getRelations` returns it (test fixture in
`src/utils/models_test.ts`).  The zero-argument model resolver of the source
is embedded as the resolved target schema. -/
structure RelationDescriptor where
  propertyKey : String
  type : RelationType
  target : ModelSchema
  targetColumn : String
deriving DecidableEq, Repr

/-- The two synchronous error kinds of the core. -/
inductive ModelError where
  | configurationError (msg : String)
  | validationError (msg : String)
deriving DecidableEq, Repr

/-- First-match association lookup (JavaScript object property read). -/
def alookup {α : Type} : List (String × α) → String → Option α
  | [], _ => none
  | (k2, v) :: rest, k => if k = k2 then some v else alookup rest k

/-- A flat result row: namespaced column keys to values. -/
abbrev Row := List (String × Value)

/-- Reading a key off a row: a missing key is JavaScript `undefined`. -/
def rowGet (row : Row) (k : String) : Value :=
  (alookup row k).getD .vUndefined

/-- Replace the first binding of `k` (JavaScript property assignment),
appending a new binding when none exists. -/
def setAssoc : List (String × Value) → String → Value → List (String × Value)
  | [], k, v => [(k, v)]
  | (k2, v2) :: rest, k, v =>
    if k = k2 then (k, v) :: rest else (k2, v2) :: setAssoc rest k v

/-- Modelled from the spec: `getPrimaryKeyInfo` of `src/utils/models.ts`
returns the descriptor with `isPrimaryKey`, and "fails with
ConfigurationError if none declared" — embedded as `none`. -/
def getPrimaryKeyInfo (m : ModelSchema) : Option FieldDescriptor :=
  m.fields.find? (fun f => f.isPrimaryKey)

/-- The namespaced row key a declared field is read under when a result row
is parsed.  Modelled from the spec ("collect every declared field of the root
model by reading `<rootTable>__<field-key>`") pinned by the
`extractRelationalRecord` test fixture of `src/utils/models_test.ts`, where
the field with propertyKey `age` and column name `my_age` is read from the
row key `users__age`: the segment is the propertyKey. -/
def extractReadKey (m : ModelSchema) (f : FieldDescriptor) : String :=
  m.tableName ++ "__" ++ f.propertyKey

/-- Modelled from the spec: `extractRelationalRecord` of
`src/utils/models.ts` reads each declared field's namespaced key directly off
one row and returns the flat propertyKey-keyed object, ignoring unrelated
columns present in the row. -/
def extractRelationalRecord (row : Row) (m : ModelSchema) : List (String × Value) :=
  m.fields.map (fun f => (f.propertyKey, rowGet row (extractReadKey m f)))

/-- The value a relation field of a mapped root object carries: `null`
(a BelongsTo with no match), a single related record, or an ordered
sequence of related records (HasMany). -/
inductive RelValue where
  | vnull
  | single (r : List (String × Value))
  | many (rs : List (List (String × Value)))
deriving DecidableEq, Repr

/-- One emitted root object of the relational result mapper: the root's flat
record and its relation fields. -/
structure MappedRecord where
  base : List (String × Value)
  rels : List (String × RelValue)
deriving DecidableEq, Repr

instance : Inhabited MappedRecord := ⟨⟨[], []⟩⟩

/-- The namespaced key of the root model's primary-key column. -/
def rootPkKey (m : ModelSchema) (pk : FieldDescriptor) : String :=
  m.tableName ++ "__" ++ pk.propertyKey

/-- The rows of one group: every row whose value under `k` is `v`, in row
order. -/
def rowsOfGroup (rows : List Row) (k : String) (v : Value) : List Row :=
  rows.filter (fun row => decide (rowGet row k = v))

/-- Insertion-order grouping step: append `row` to the group keyed `k`,
or open a new group at the end. -/
def addToGroups (k : Value) (row : Row) :
    List (Value × List Row) → List (Value × List Row)
  | [] => [(k, [row])]
  | (k2, rs) :: rest =>
    if k = k2 then (k2, rs ++ [row]) :: rest
    else (k2, rs) :: addToGroups k row rest

/-- Modelled from the spec: "Iterate rows in order, grouping
consecutive-or-scattered rows by the root's primary-key value, preserving
first-seen order of distinct primary-key values (a stable, insertion-order
grouping, not a sort)." -/
def groupRows (key : Row → Value) (rows : List Row) : List (Value × List Row) :=
  rows.foldl (fun acc row => addToGroups (key row) row acc) []

/-- First occurrences of the values of a list, in first-seen order
(`seen` accumulates the values already emitted). -/
def firstSeenAux (seen : List Value) : List Value → List Value
  | [] => []
  | v :: rest =>
    if v ∈ seen then firstSeenAux seen rest
    else v :: firstSeenAux (v :: seen) rest

def firstSeen (l : List Value) : List Value := firstSeenAux [] l

/-- Modelled from the spec: one relation field of a mapped group.  HasMany:
every row of the group whose related primary-key column is `null` is skipped,
the others are appended in row order with no deduplication.  BelongsTo: the
first row's extracted record, or `null` when its primary-key value is
`null`. -/
def relationValueOf (grp : List Row) (rt : RelationDescriptor × FieldDescriptor) :
    RelValue :=
  match rt.1.type with
  | .hasMany =>
    .many (grp.filterMap (fun row =>
      if rowGet row (rt.1.target.tableName ++ "__" ++ rt.2.propertyKey) = .vNull then none
      else some (extractRelationalRecord row rt.1.target)))
  | .belongsTo =>
    if rowGet (grp.headD []) (rt.1.target.tableName ++ "__" ++ rt.2.propertyKey) = .vNull
    then .vnull
    else .single (extractRelationalRecord (grp.headD []) rt.1.target)

def relationEntry (grp : List Row) (rt : RelationDescriptor × FieldDescriptor) :
    String × RelValue :=
  (rt.1.propertyKey, relationValueOf grp rt)

/-- The root object of one group: the root record is extracted from the
group's first row, and each included relation is attached. -/
def buildMapped (m : ModelSchema) (rels : List (RelationDescriptor × FieldDescriptor))
    (grp : Value × List Row) : MappedRecord :=
  { base := extractRelationalRecord (grp.2.headD []) m
    rels := rels.map (relationEntry grp.2) }

/-- Resolve each relation's target primary key; `none` when a target model
declares no primary key (ConfigurationError). -/
def resolveRels (included : List RelationDescriptor) :
    Option (List (RelationDescriptor × FieldDescriptor)) :=
  included.mapM (fun r => (getPrimaryKeyInfo r.target).map (fun tpk => (r, tpk)))

/-- Modelled from the spec: `mapRelationalResult` of `src/utils/models.ts`.
Groups the rows by the root's namespaced primary-key value in first-seen
order, extracts each group's root record from its first row, and attaches
every requested relation (`relationEntry`).  Pinned by the
`mapRelationalResult` test fixtures of `src/utils/models_test.ts`. -/
def mapRelationalResult (m : ModelSchema) (relations : List RelationDescriptor)
    (includes : List String) (rows : List Row) :
    Except ModelError (List MappedRecord) :=
  match getPrimaryKeyInfo m with
  | none => .error (.configurationError "primary key")
  | some pk =>
    let included := relations.filter (fun r => includes.contains r.propertyKey)
    match resolveRels included with
    | none => .error (.configurationError "primary key")
    | some rels =>
      let pkKey := m.tableName ++ "__" ++ pk.propertyKey
      .ok ((groupRows (fun row => rowGet row pkKey) rows).map (buildMapped m rels))

/-- A model instance: its schema, its current field values (keyed by
propertyKey, as instance properties are), and the two pieces of attached
persistence state: the saved flag and the optional original snapshot
(keyed by column name). -/
@[ext]
structure ModelInstance where
  schema : ModelSchema
  values : List (String × Value)
  saved : Bool
  original : Option (List (String × Value))
deriving DecidableEq, Repr

instance : Inhabited ModelInstance := ⟨⟨⟨"", []⟩, [], false, none⟩⟩

/-- Read an instance field by propertyKey (an unassigned field is
`undefined`). -/
def getField (inst : ModelInstance) (p : String) : Value :=
  rowGet inst.values p

/-- Assign an instance field by propertyKey. -/
def setField (inst : ModelInstance) (p : String) (v : Value) : ModelInstance :=
  { inst with values := setAssoc inst.values p v }

/-- The thrown ValidationError's message for a required empty field
(the `getValues` tests of `src/utils/models_test.ts`). -/
def emptyFieldMessage (propertyKey : String) : String :=
  "Field '" ++ propertyKey ++ "' cannot be empty!"

/-- Modelled from the spec: the per-field substitution of `getValues` — an
undefined value becomes the declared default if one exists, else `null` when
the field is nullable, else the write fails with ValidationError naming the
field. -/
def materializeField (f : FieldDescriptor) (v : Value) : Except ModelError Value :=
  if v = .vUndefined then
    match f.defaultValue with
    | some d => .ok d
    | none =>
      if f.isNullable then .ok .vNull
      else .error (.validationError (emptyFieldMessage f.propertyKey))
  else .ok v

/-- The value `materializeField` yields when it succeeds (used to state the
characterization of `getValues`). -/
def matValue (f : FieldDescriptor) (v : Value) : Value :=
  match materializeField f v with
  | .ok w => w
  | .error _ => .vUndefined

/-- The fields `getValues` materializes: all declared fields, or the subset
whose propertyKey is in the given filter. -/
def selectedFields (m : ModelSchema) (filter? : Option (List String)) :
    List FieldDescriptor :=
  match filter? with
  | none => m.fields
  | some ks => m.fields.filter (fun f => ks.contains f.propertyKey)

/-- Modelled from the spec: `getValues` of `src/utils/models.ts` — a mapping
from column name (not propertyKey) to the materialized current value of each
selected field. -/
def getValues (inst : ModelInstance) (filter? : Option (List String)) :
    Except ModelError (List (String × Value)) :=
  (selectedFields inst.schema filter?).mapM (fun f =>
    (materializeField f (getField inst f.propertyKey)).map (fun v => (f.name, v)))

def isSaved (inst : ModelInstance) : Bool := inst.saved

def getOriginal (inst : ModelInstance) : Option (List (String × Value)) :=
  inst.original

/-- Modelled from the spec: `setSaved` — "setting true captures `getOriginal`
snapshot = current column values (via getValues with no field restriction);
setting false clears the snapshot." -/
def setSaved (inst : ModelInstance) (b : Bool) : Except ModelError ModelInstance :=
  if b then
    (getValues inst none).map (fun vals =>
      { inst with saved := true, original := some vals })
  else .ok { inst with saved := false, original := none }

structure CompareResult where
  isDirty : Bool
  changedFields : List String
deriving DecidableEq, Repr

/-- Modelled from the spec: `compareWithOriginal` — with no snapshot the
instance is fully dirty with no itemized fields; with a snapshot, each
field's current column value (materialized the same way the snapshot was
captured, via `getValues`) is compared to the snapshot's value by column
name, and any mismatch adds the field's propertyKey. -/
def compareWithOriginal (inst : ModelInstance) : Except ModelError CompareResult :=
  match inst.original with
  | none => .ok ⟨true, []⟩
  | some snap =>
    (getValues inst none).map (fun vals =>
      let changed := (inst.schema.fields.filter (fun f =>
        decide (alookup vals f.name ≠ alookup snap f.name))).map (fun f => f.propertyKey)
      ⟨!changed.isEmpty, changed⟩)

/-- Modelled from the spec: `normalizeModel` — "for every declared field,
coerces the current raw value to the field's semantic type ... Mutates the
instance's field values in place." -/
def normalizeModel (inst : ModelInstance) : ModelInstance :=
  { inst with
    values := inst.schema.fields.foldl (fun vs f =>
      setAssoc vs f.propertyKey
        (normalizeValue f.type ((alookup vs f.propertyKey).getD .vUndefined)))
      inst.values }

/-- Read the instance's primary-key field by propertyKey. -/
def getPrimaryKey (inst : ModelInstance) : Value :=
  match getPrimaryKeyInfo inst.schema with
  | some pk => getField inst pk.propertyKey
  | none => .vUndefined

/-- Write the instance's primary-key field by propertyKey. -/
def setPrimaryKey (inst : ModelInstance) (v : Value) : ModelInstance :=
  match getPrimaryKeyInfo inst.schema with
  | some pk => setField inst pk.propertyKey v
  | none => inst

/-- A statement issued to the database adapter: an update with a where clause
on one column, or a (possibly multi-row) insert with an optional returning
clause. -/
inductive DbOp where
  | updateOp (table : String) (whereColumn : String) (whereValue : Value)
      (data : List (String × Value))
  | insertOp (table : String) (data : List (List (String × Value)))
      (returning : Option String)
deriving DecidableEq, Repr

/-- The body of `Model.save` after its initial `normalizeModel` call
(`src/models/model.ts` lines 254-311).  A saved instance is compared with its
snapshot and an update of the changed fields is issued only when dirty; an
unsaved instance is inserted, reading the generated identifier from the
returning result's last row under the postgres dialect and from the adapter's
`lastInsertedId` otherwise; either way the instance is then marked saved. -/
def saveNormalized (dialect : String) (lastInsertedId : Int)
    (insertResult : List Row) (inst : ModelInstance) :
    Except ModelError (ModelInstance × List DbOp) :=
  match getPrimaryKeyInfo inst.schema with
  | none => .error (.configurationError "primary key")
  | some pk =>
    if isSaved inst then do
      let cmp ← compareWithOriginal inst
      if cmp.isDirty then do
        let data ← getValues inst (some cmp.changedFields)
        let inst2 ← setSaved inst true
        pure (inst2, [DbOp.updateOp inst.schema.tableName pk.name
          (getPrimaryKey inst) data])
      else do
        let inst2 ← setSaved inst true
        pure (inst2, [])
    else do
      let data ← getValues inst none
      let ret := if dialect = "postgres" then some pk.name else none
      let newId : Value :=
        if dialect = "postgres" then rowGet ((insertResult.getLast?).getD []) pk.name
        else .vNum lastInsertedId
      let inst1 := setPrimaryKey inst newId
      let inst2 ← setSaved inst1 true
      pure (inst2, [DbOp.insertOp inst.schema.tableName [data] ret])

/-- `Model.save` (`src/models/model.ts` lines 254-311): the instance is
normalized in place first, then written. -/
def save (dialect : String) (lastInsertedId : Int) (insertResult : List Row)
    (inst : ModelInstance) : Except ModelError (ModelInstance × List DbOp) :=
  saveNormalized dialect lastInsertedId insertResult (normalizeModel inst)

/-- Modelled from the spec: `range` of `src/utils/number.ts` is not under the
staged sources; per the spec's words the bulk coordinator "computes the full
run `[lastId - N + 1 .. lastId]`", so `range a b` is the inclusive ascending
run from `a` to `b`. -/
def range (a b : Int) : List Int :=
  (List.range (b - a + 1).toNat).map (fun (i : Nat) => a + (i : Int))

/-- `Model._bulkSave` (`src/models/model.ts` lines 371-409): materialize every
model's column values, issue one multi-row insert (with a returning clause
under the postgres dialect), take the last inserted identifier (under
postgres, the last returning row's primary-key value), compute the run
`range (lastId + 1 - N) lastId` and assign its i-th value to the i-th model,
marking each saved. -/
def bulkSave (m : ModelSchema) (dialect : String) (lastInsertedId : Int)
    (insertResult : List Row) (models : List ModelInstance) :
    Except ModelError (List ModelInstance × List DbOp) := do
  let values ← models.mapM (fun mo => getValues mo none)
  match getPrimaryKeyInfo m with
  | none => .error (.configurationError "primary key")
  | some pk =>
    let ret := if dialect = "postgres" then some pk.name else none
    let lastId : Int :=
      if dialect = "postgres" then
        -- `result[result.length - 1][primaryKey] as number`: the claims only
        -- exercise numeric returning values.
        match rowGet ((insertResult.getLast?).getD []) pk.name with
        | .vNum n => n
        | _ => 0
      else lastInsertedId
    let ids := range (lastId + 1 - models.length) lastId
    let models' ← (models.zip ids).mapM (fun mi =>
      setSaved (setPrimaryKey mi.1 (.vNum mi.2)) true)
    pure (models', [DbOp.insertOp m.tableName values ret])

/-- The namespaced alias under which `find`/`findOne` select a column
(`src/models/model.ts` lines 98-103 and 228-233): table name, double
underscore, then the field's configured column name. -/
def selectAliasKey (m : ModelSchema) (f : FieldDescriptor) : String :=
  m.tableName ++ "__" ++ f.name

/-! ### The test fixtures of `src/utils/models_test.ts` -/

/-- A numeric primary-key descriptor named `id` (the `getPrimaryKeyInfo`
test fixture). -/
def idField : FieldDescriptor :=
  { propertyKey := "id", name := "id", type := .number,
    isPrimaryKey := true, isNullable := false, defaultValue := none,
    select := true }

def emailField : FieldDescriptor :=
  { propertyKey := "email", name := "email", type := .string,
    isPrimaryKey := false, isNullable := false, defaultValue := none,
    select := true }

/-- The `age` field of the `User` fixture: its configured column name
`my_age` differs from its propertyKey. -/
def ageField : FieldDescriptor :=
  { propertyKey := "age", name := "my_age", type := .number,
    isPrimaryKey := false, isNullable := false, defaultValue := none,
    select := true }

def titleField : FieldDescriptor :=
  { propertyKey := "title", name := "title", type := .string,
    isPrimaryKey := false, isNullable := false, defaultValue := none,
    select := true }

/-- The `User` model of the test fixtures: primary key `id`, `email`, and
`age` whose configured column name is `my_age`. -/
def UserSchema : ModelSchema :=
  { tableName := "users", fields := [idField, emailField, ageField] }

/-- The `Product` model of the test fixtures. -/
def ProductSchema : ModelSchema :=
  { tableName := "products", fields := [idField, titleField] }

/-- `User.products`: HasMany towards `Product` over `user_id`. -/
def userProductsRel : RelationDescriptor :=
  { propertyKey := "products", type := .hasMany, target := ProductSchema,
    targetColumn := "user_id" }

/-- `Product.user`: BelongsTo towards `User` over `user_id`. -/
def productUserRel : RelationDescriptor :=
  { propertyKey := "user", type := .belongsTo, target := UserSchema,
    targetColumn := "user_id" }

/-- The joined row of the `extractRelationalRecord` test. -/
def extractTestRow : Row :=
  [("users__id", .vNum 1), ("users__email", .vStr "a@b.com"),
   ("users__age", .vNum 16), ("products__title", .vStr "Spoon"),
   ("products__id", .vNum 2)]

/-- The HasMany row stream of the `mapRelationalResult` test: three products
across users 1 and 2, and user 3 joined only to a null product row. -/
def hasManyTestRows : List Row :=
  [[("users__id", .vNum 1), ("users__email", .vStr "a@b.com"),
    ("users__age", .vNum 16), ("products__title", .vStr "Spoon"),
    ("products__id", .vNum 1)],
   [("users__id", .vNum 1), ("users__email", .vStr "a@b.com"),
    ("users__age", .vNum 16), ("products__title", .vStr "Rice"),
    ("products__id", .vNum 2)],
   [("users__id", .vNum 2), ("users__email", .vStr "b@c.com"),
    ("users__age", .vNum 17), ("products__title", .vStr "Table"),
    ("products__id", .vNum 3)],
   [("users__id", .vNum 3), ("users__email", .vStr "c@d.com"),
    ("users__age", .vNum 18), ("products__title", .vNull),
    ("products__id", .vNull)]]

/-- The BelongsTo row stream of the `mapRelationalResult` test: products 1
and 2 belong to user 1, product 3 to no user. -/
def belongsToTestRows : List Row :=
  [[("products__title", .vStr "Spoon"), ("products__id", .vNum 1),
    ("users__id", .vNum 1), ("users__email", .vStr "a@b.com"),
    ("users__age", .vNum 16)],
   [("products__title", .vStr "Rice"), ("products__id", .vNum 2),
    ("users__id", .vNum 1), ("users__email", .vStr "a@b.com"),
    ("users__age", .vNum 16)],
   [("products__title", .vStr "Table"), ("products__id", .vNum 3),
    ("users__id", .vNull), ("users__email", .vNull),
    ("users__age", .vNull)]]

/-- A nullable numeric primary-key descriptor, used by the persistence
example models (so an unsaved instance without an identifier can be
materialized for insertion). -/
def nullableIdField : FieldDescriptor :=
  { propertyKey := "id", name := "id", type := .number,
    isPrimaryKey := true, isNullable := true, defaultValue := none,
    select := true }

/-- A `Post`-like model used by the persistence examples: nullable numeric
primary key `id` and a required numeric `likes` column. -/
def PostSchema : ModelSchema :=
  { tableName := "posts"
    fields := [nullableIdField,
      { propertyKey := "likes", name := "likes", type := .number,
        isPrimaryKey := false, isNullable := false, defaultValue := none,
        select := true }] }

/-- An unsaved post whose `likes` field still holds the raw numeric string
`"16"` (as assigned by a caller before any normalization ran). -/
def rawPost : ModelInstance :=
  { schema := PostSchema
    values := [("id", .vNum 1), ("likes", .vStr "16")]
    saved := false
    original := none }

/-- A saved post whose snapshot was captured while `likes` held the raw
numeric string `"16"`: its materialized column values equal its snapshot, so
`compareWithOriginal` reports it clean. -/
def savedRawPost : ModelInstance :=
  { schema := PostSchema
    values := [("id", .vNum 1), ("likes", .vStr "16")]
    saved := true
    original := some [("id", .vNum 1), ("likes", .vStr "16")] }

/-- An `Item` model for the bulk-insert examples: nullable numeric primary
key and a required title. -/
def ItemSchema : ModelSchema :=
  { tableName := "items"
    fields := [nullableIdField,
      { propertyKey := "title", name := "title", type := .string,
        isPrimaryKey := false, isNullable := false, defaultValue := none,
        select := true }] }

def itemA : ModelInstance :=
  { schema := ItemSchema, values := [("title", .vStr "a")],
    saved := false, original := none }

def itemB : ModelInstance :=
  { schema := ItemSchema, values := [("title", .vStr "b")],
    saved := false, original := none }

def itemC : ModelInstance :=
  { schema := ItemSchema, values := [("title", .vStr "c")],
    saved := false, original := none }

/-- The unsaved `User` instance of the state-tracking test
(`src/utils/models_test.ts` lines 373-400). -/
def testUser : ModelInstance :=
  { schema := UserSchema
    values := [("id", .vNum 1), ("email", .vStr "a@b.com"), ("age", .vNum 16)]
    saved := false
    original := none }

/-- The model of the `getValues` default-value test: one field `name` with
declared default `"john"`. -/
def DefaultSchema : ModelSchema :=
  { tableName := "users"
    fields := [
      { propertyKey := "name", name := "name", type := .string,
        isPrimaryKey := false, isNullable := false,
        defaultValue := some (.vStr "john"), select := true }] }

/-- The model of the `getValues` nullable test. -/
def NullableSchema : ModelSchema :=
  { tableName := "users"
    fields := [
      { propertyKey := "name", name := "name", type := .string,
        isPrimaryKey := false, isNullable := true, defaultValue := none,
        select := true }] }

/-- The model of the `getValues` required-field error test. -/
def RequiredSchema : ModelSchema :=
  { tableName := "users"
    fields := [
      { propertyKey := "name", name := "name", type := .string,
        isPrimaryKey := false, isNullable := false, defaultValue := none,
        select := true }] }

/-- The model of the `getValues` custom-column-name test: propertyKey `name`
stored under column `full_name`. -/
def CustomNameSchema : ModelSchema :=
  { tableName := "users"
    fields := [
      { propertyKey := "name", name := "full_name", type := .string,
        isPrimaryKey := false, isNullable := false, defaultValue := none,
        select := true }] }

/-- A blank instance of a given schema. -/
def blankInstance (m : ModelSchema) : ModelInstance :=
  { schema := m, values := [], saved := false, original := none }

/-- The custom-column-name test instance with `name` assigned `"john"`. -/
def namedJohn : ModelInstance :=
  { schema := CustomNameSchema, values := [("name", .vStr "john")],
    saved := false, original := none }

/-- `testUser` right after `setSaved(user, true)`: the snapshot keys are
column names (`my_age`), matching the `getOriginal` assertion of the test. -/
def savedTestUser : ModelInstance :=
  { schema := UserSchema
    values := [("id", .vNum 1), ("email", .vStr "a@b.com"), ("age", .vNum 16)]
    saved := true
    original := some [("id", .vNum 1), ("email", .vStr "a@b.com"),
      ("my_age", .vNum 16)] }

/-- A saved, clean post whose field values are already normalized. -/
def normalizedSavedPost : ModelInstance :=
  { schema := PostSchema
    values := [("id", .vNum 1), ("likes", .vNum 16)]
    saved := true
    original := some [("id", .vNum 1), ("likes", .vNum 16)] }

/-! ### Association-list lemmas -/

theorem alookup_setAssoc (l : List (String × Value)) (k k' : String) (v : Value) :
    alookup (setAssoc l k v) k' = if k' = k then some v else alookup l k' := by
  induction l with
  | nil => by_cases h : k' = k <;> simp [setAssoc, alookup, h]
  | cons p rest ih =>
    obtain ⟨k2, v2⟩ := p
    by_cases h : k = k2
    · subst h
      by_cases h' : k' = k <;> simp [setAssoc, alookup, h']
    · by_cases h' : k' = k2
      · subst h'
        simp [setAssoc, alookup, h, Ne.symm h]
      · simp [setAssoc, alookup, h, h', ih]

theorem setAssoc_eq_self (l : List (String × Value)) (k : String) (v : Value)
    (h : alookup l k = some v) : setAssoc l k v = l := by
  induction l with
  | nil => simp [alookup] at h
  | cons p rest ih =>
    obtain ⟨k2, v2⟩ := p
    by_cases hk : k = k2
    · subst hk
      simp [alookup] at h
      simp [setAssoc, h]
    · simp [alookup, hk] at h
      simp [setAssoc, hk, ih h]

theorem alookup_map_key {α β : Type} (l : List α) (key : α → String) (val : α → β)
    (x : α) (hx : x ∈ l) (hnd : (l.map key).Nodup) :
    alookup (l.map (fun a => (key a, val a))) (key x) = some (val x) := by
  induction l with
  | nil => simp at hx
  | cons a rest ih =>
    rw [List.mem_cons] at hx
    simp only [List.map_cons, List.nodup_cons] at hnd
    by_cases h : key x = key a
    · have hxa : x = a := by
        rcases hx with hx | hx
        · exact hx
        · exact absurd (h ▸ List.mem_map_of_mem key hx) hnd.1
      subst hxa
      simp [alookup, h]
    · have hx' : x ∈ rest := by
        rcases hx with hx | hx
        · exact absurd (hx ▸ rfl) h
        · exact hx
      simp [alookup, h, ih hx' hnd.2]

/-- With distinct keys, the member with a given key is the one `find?`
returns. -/
theorem find?_key_eq {α : Type} (l : List α) (key : α → String) (x : α)
    (hx : x ∈ l) (hnd : (l.map key).Nodup) :
    l.find? (fun a => decide (key a = key x)) = some x := by
  induction l with
  | nil => simp at hx
  | cons a rest ih =>
    rw [List.mem_cons] at hx
    simp only [List.map_cons, List.nodup_cons] at hnd
    by_cases h : key a = key x
    · have hxa : x = a := by
        rcases hx with hx | hx
        · exact hx
        · exact absurd (h ▸ List.mem_map_of_mem key hx) hnd.1
      subst hxa
      simp [List.find?, h]
    · have hx' : x ∈ rest := by
        rcases hx with hx | hx
        · exact absurd (hx ▸ rfl) h
        · exact hx
      simp [List.find?, h, ih hx' hnd.2]

/-! ### First-seen order and insertion-order grouping -/

theorem mem_firstSeenAux_iff (l : List Value) (seen : List Value) (v : Value) :
    v ∈ firstSeenAux seen l ↔ v ∈ l ∧ v ∉ seen := by
  induction l generalizing seen with
  | nil => simp [firstSeenAux]
  | cons w rest ih =>
    by_cases hw : w ∈ seen
    · rw [firstSeenAux, if_pos hw, ih]
      constructor
      · rintro ⟨h1, h2⟩
        exact ⟨List.mem_cons_of_mem w h1, h2⟩
      · rintro ⟨h1, h2⟩
        rw [List.mem_cons] at h1
        rcases h1 with rfl | h1
        · exact absurd hw h2
        · exact ⟨h1, h2⟩
    · rw [firstSeenAux, if_neg hw]
      by_cases hv : v = w
      · subst hv
        simp [hw]
      · rw [List.mem_cons, List.mem_cons]
        simp only [hv, false_or, ih, List.mem_cons]

theorem mem_firstSeen_iff (l : List Value) (v : Value) :
    v ∈ firstSeen l ↔ v ∈ l := by
  simp [firstSeen, mem_firstSeenAux_iff]

theorem firstSeenAux_nodup (l : List Value) (seen : List Value) :
    (firstSeenAux seen l).Nodup := by
  induction l generalizing seen with
  | nil => simp [firstSeenAux]
  | cons w rest ih =>
    by_cases hw : w ∈ seen
    · rw [firstSeenAux, if_pos hw]
      exact ih seen
    · rw [firstSeenAux, if_neg hw]
      refine List.nodup_cons.mpr ⟨?_, ih (w :: seen)⟩
      intro hmem
      rw [mem_firstSeenAux_iff] at hmem
      exact hmem.2 (List.mem_cons_self w seen)

theorem firstSeen_nodup (l : List Value) : (firstSeen l).Nodup :=
  firstSeenAux_nodup l []

theorem firstSeenAux_snoc (l : List Value) (seen : List Value) (w : Value) :
    firstSeenAux seen (l ++ [w]) =
      firstSeenAux seen l ++ (if w ∈ seen ∨ w ∈ l then [] else [w]) := by
  induction l generalizing seen with
  | nil => by_cases hw : w ∈ seen <;> simp [firstSeenAux, hw]
  | cons x rest ih =>
    by_cases hx : x ∈ seen
    · have hcond : ((w ∈ seen ∨ w ∈ x :: rest) = (w ∈ seen ∨ w ∈ rest)) := by
        apply propext
        constructor
        · rintro (h | h)
          · exact Or.inl h
          · rw [List.mem_cons] at h
            rcases h with rfl | h
            · exact Or.inl hx
            · exact Or.inr h
        · rintro (h | h)
          · exact Or.inl h
          · exact Or.inr (List.mem_cons_of_mem x h)
      simp only [List.cons_append, List.append_eq, firstSeenAux, if_pos hx, ih, hcond]
    · have hcond : ((w ∈ x :: seen ∨ w ∈ rest) = (w ∈ seen ∨ w ∈ x :: rest)) := by
        apply propext
        rw [List.mem_cons, List.mem_cons]
        tauto
      simp only [List.cons_append, List.append_eq, firstSeenAux, if_neg hx, ih, hcond,
        List.cons_append]

theorem firstSeen_snoc (l : List Value) (w : Value) :
    firstSeen (l ++ [w]) =
      firstSeen l ++ (if w ∈ l then [] else [w]) := by
  simp [firstSeen, firstSeenAux_snoc]

/-- `addToGroups` with distinct group keys: append to the matching group,
or open a new one. -/
theorem addToGroups_char (k : Value) (row : Row) (gs : List (Value × List Row))
    (hnd : (gs.map Prod.fst).Nodup) :
    addToGroups k row gs =
      if k ∈ gs.map Prod.fst then
        gs.map (fun g => if g.1 = k then (g.1, g.2 ++ [row]) else g)
      else gs ++ [(k, [row])] := by
  induction gs with
  | nil => simp [addToGroups]
  | cons g rest ih =>
    obtain ⟨k2, rs⟩ := g
    rw [List.map_cons, List.nodup_cons] at hnd
    by_cases h : k = k2
    · subst h
      have hrest : rest.map (fun g => if g.1 = k then (g.1, g.2 ++ [row]) else g)
          = rest := by
        refine (List.map_congr_left ?_).trans (List.map_id rest)
        intro g hg
        have hne : g.1 ≠ k := by
          intro he
          have hm : g.1 ∈ rest.map Prod.fst := List.mem_map_of_mem Prod.fst hg
          rw [he] at hm
          exact hnd.1 hm
        simp [hne]
      simp [addToGroups, hrest]
    · have h2 : k2 ≠ k := Ne.symm h
      by_cases hk : k ∈ rest.map Prod.fst
      · simp [addToGroups, h, ih hnd.2, hk, h2]
      · simp [addToGroups, h, ih hnd.2, hk, h2]

/-- Insertion-order grouping, characterized: the group keys are the distinct
row keys in first-seen order, and each group holds the rows with that key in
row order. -/
theorem groupRows_eq (key : Row → Value) (rows : List Row) :
    groupRows key rows =
      (firstSeen (rows.map key)).map
        (fun v => (v, rows.filter (fun r => decide (key r = v)))) := by
  induction rows using List.reverseRecOn with
  | nil => simp [groupRows, firstSeen, firstSeenAux]
  | append_singleton rows r ih =>
    have hstep : groupRows key (rows ++ [r]) =
        addToGroups (key r) r (groupRows key rows) := by
      simp [groupRows, List.foldl_append]
    have hmap : ((firstSeen (rows.map key)).map
        (fun v => (v, rows.filter (fun r => decide (key r = v))))).map Prod.fst
        = firstSeen (rows.map key) := by
      rw [List.map_map]
      exact (List.map_congr_left (fun v _ => rfl)).trans (List.map_id _)
    have hnd : (((firstSeen (rows.map key)).map
        (fun v => (v, rows.filter (fun r => decide (key r = v))))).map Prod.fst).Nodup := by
      rw [hmap]
      exact firstSeen_nodup (rows.map key)
    have hsnoc : firstSeen ((rows ++ [r]).map key)
        = firstSeen (rows.map key) ++ (if key r ∈ rows.map key then [] else [key r]) := by
      rw [List.map_append, List.map_singleton, firstSeen_snoc]
    rw [hstep, ih, addToGroups_char _ _ _ hnd, hmap]
    by_cases hk : key r ∈ rows.map key
    · have hk' : key r ∈ firstSeen (rows.map key) := (mem_firstSeen_iff _ _).mpr hk
      rw [if_pos hk', hsnoc, if_pos hk, List.append_nil, List.map_map]
      refine List.map_congr_left ?_
      intro v hv
      by_cases hvr : v = key r
      · subst hvr
        simp [Function.comp, List.filter_append]
      · have hne : ¬ (key r = v) := fun he => hvr he.symm
        simp [Function.comp, hvr, List.filter_append, hne]
    · have hk' : key r ∉ firstSeen (rows.map key) :=
        fun hmem => hk ((mem_firstSeen_iff _ _).mp hmem)
      rw [if_neg hk', hsnoc, if_neg hk, List.map_append, List.map_singleton]
      congr 1
      · refine List.map_congr_left ?_
        intro v hv
        have hvr : ¬ (key r = v) := by
          intro he
          exact hk' (he ▸ hv)
        simp [List.filter_append, hvr]
      · have hnone : rows.filter (fun x => decide (key x = key r)) = [] := by
          refine List.filter_eq_nil_iff.mpr ?_
          intro x hx hdec
          exact hk (by
            have hxe : key x = key r := of_decide_eq_true hdec
            exact hxe ▸ List.mem_map_of_mem key hx)
        simp [List.filter_append, hnone]

/-! ### Traversal lemmas for `Except` and `Option` -/

theorem mapM_ok_of_forall {α β : Type} (l : List α) (f : α → Except ModelError β)
    (g : α → β) (h : ∀ x ∈ l, f x = .ok (g x)) : l.mapM f = .ok (l.map g) := by
  induction l with
  | nil => rfl
  | cons a rest ih =>
    have h1 := h a (List.mem_cons_self a rest)
    have h2 := ih (fun x hx => h x (List.mem_cons_of_mem a hx))
    rw [List.mapM_cons, h1]
    show rest.mapM f >>= (fun bs => pure (g a :: bs)) = _
    rw [h2]
    rfl

theorem mapM_ok_exists {α β : Type} (l : List α) (f : α → Except ModelError β)
    (h : ∀ x ∈ l, ∃ y, f x = .ok y) : ∃ out, l.mapM f = .ok out := by
  induction l with
  | nil => exact ⟨[], rfl⟩
  | cons a rest ih =>
    obtain ⟨b, hb⟩ := h a (List.mem_cons_self a rest)
    obtain ⟨bs, hbs⟩ := ih (fun x hx => h x (List.mem_cons_of_mem a hx))
    refine ⟨b :: bs, ?_⟩
    rw [List.mapM_cons, hb]
    show rest.mapM f >>= (fun ys => pure (b :: ys)) = _
    rw [hbs]
    rfl

theorem mapM_ok_getD {α β : Type} (dx : α) (dy : β) (l : List α)
    (f : α → Except ModelError β) (out : List β) (h : l.mapM f = .ok out) :
    out.length = l.length ∧
      ∀ i, i < l.length → f (l.getD i dx) = .ok (out.getD i dy) := by
  induction l generalizing out with
  | nil =>
    have hout : out = [] := by
      have : (Except.ok [] : Except ModelError (List β)) = .ok out := h
      exact (Except.ok.injEq _ _ ▸ this).symm
    subst hout
    exact ⟨rfl, fun i hi => absurd hi (by simp)⟩
  | cons a rest ih =>
    rw [List.mapM_cons] at h
    cases hfa : f a with
    | error e =>
      rw [hfa] at h
      exact absurd h (by intro hcon; cases hcon)
    | ok b =>
      rw [hfa] at h
      replace h : rest.mapM f >>= (fun bs => pure (b :: bs)) = .ok out := h
      cases hrest : rest.mapM f with
      | error e =>
        rw [hrest] at h
        exact absurd h (by intro hcon; cases hcon)
      | ok bs =>
        rw [hrest] at h
        have hout : out = b :: bs := by
          have : (Except.ok (b :: bs) : Except ModelError (List β)) = .ok out := h
          cases this
          rfl
        subst hout
        obtain ⟨hlen, hpt⟩ := ih bs hrest
        refine ⟨by simp [hlen], ?_⟩
        intro i hi
        cases i with
        | zero => simpa using hfa
        | succ j =>
          simp only [List.getD_cons_succ]
          exact hpt j (by simpa using hi)

theorem mapM_error_of_exists {α β : Type} (l : List α)
    (f : α → Except ModelError β) (hbad : ∃ x ∈ l, ∃ e, f x = .error e) :
    ∃ x ∈ l, ∃ e, f x = .error e ∧ l.mapM f = .error e := by
  induction l with
  | nil => simp at hbad
  | cons a rest ih =>
    cases hfa : f a with
    | error e =>
      refine ⟨a, List.mem_cons_self a rest, e, hfa, ?_⟩
      rw [List.mapM_cons, hfa]
      rfl
    | ok b =>
      have hbad' : ∃ x ∈ rest, ∃ e, f x = .error e := by
        obtain ⟨x, hx, e, he⟩ := hbad
        rw [List.mem_cons] at hx
        rcases hx with rfl | hx
        · rw [hfa] at he
          cases he
        · exact ⟨x, hx, e, he⟩
      obtain ⟨x, hx, e, he, hm⟩ := ih hbad'
      refine ⟨x, List.mem_cons_of_mem a hx, e, he, ?_⟩
      rw [List.mapM_cons, hfa]
      show rest.mapM f >>= (fun ys => pure (b :: ys)) = _
      rw [hm]
      rfl

theorem resolveRels_spec (included : List RelationDescriptor)
    (rels : List (RelationDescriptor × FieldDescriptor))
    (h : resolveRels included = some rels) :
    rels.map Prod.fst = included ∧
      ∀ rt ∈ rels, getPrimaryKeyInfo rt.1.target = some rt.2 := by
  induction included generalizing rels with
  | nil =>
    have : rels = [] := by
      have h' : (some [] : Option (List (RelationDescriptor × FieldDescriptor)))
          = some rels := h
      cases h'
      rfl
    subst this
    exact ⟨rfl, by simp⟩
  | cons r rest ih =>
    rw [resolveRels, List.mapM_cons] at h
    cases htpk : getPrimaryKeyInfo r.target with
    | none =>
      rw [htpk] at h
      cases h
    | some tpk =>
      rw [htpk] at h
      replace h : (rest.mapM (fun x => (getPrimaryKeyInfo x.target).map
          (fun y => (x, y))) >>= (fun ys => pure ((r, tpk) :: ys))) = some rels := h
      cases hrest : rest.mapM (fun x => (getPrimaryKeyInfo x.target).map
          (fun y => (x, y))) with
      | none =>
        rw [hrest] at h
        cases h
      | some rels' =>
        rw [hrest] at h
        have hr : rels = (r, tpk) :: rels' := by
          have h' : (some ((r, tpk) :: rels') :
              Option (List (RelationDescriptor × FieldDescriptor))) = some rels := h
          cases h'
          rfl
        subst hr
        obtain ⟨h1, h2⟩ := ih rels' hrest
        refine ⟨by simp [h1], ?_⟩
        intro rt hrt
        rw [List.mem_cons] at hrt
        rcases hrt with rfl | hrt
        · exact htpk
        · exact h2 rt hrt

/-! ### Extraction and mapper lemmas -/

theorem rowGet_headD_filter (rows : List Row) (k : String) (v : Value)
    (h : v ∈ rows.map (fun row => rowGet row k)) :
    rowGet ((rows.filter (fun row => decide (rowGet row k = v))).headD []) k = v := by
  induction rows with
  | nil => simp at h
  | cons r rest ih =>
    by_cases hr : rowGet r k = v
    · rw [List.filter_cons_of_pos (by simpa using hr)]
      simpa using hr
    · rw [List.map_cons, List.mem_cons] at h
      rcases h with he | h
      · exact absurd he.symm hr
      · rw [List.filter_cons_of_neg (by simpa using hr)]
        exact ih h

theorem alookup_extract (row : Row) (m : ModelSchema) (f : FieldDescriptor)
    (hf : f ∈ m.fields) (hnd : (m.fields.map (fun g => g.propertyKey)).Nodup) :
    alookup (extractRelationalRecord row m) f.propertyKey
      = some (rowGet row (extractReadKey m f)) :=
  alookup_map_key m.fields (fun g => g.propertyKey)
    (fun g => rowGet row (extractReadKey m g)) f hf hnd

theorem alookup_relationEntries (grp : List Row)
    (rels : List (RelationDescriptor × FieldDescriptor))
    (rt : RelationDescriptor × FieldDescriptor) (hrt : rt ∈ rels)
    (hnd : (rels.map (fun x => x.1.propertyKey)).Nodup) :
    alookup (rels.map (relationEntry grp)) rt.1.propertyKey
      = some (relationValueOf grp rt) :=
  alookup_map_key rels (fun x => x.1.propertyKey) (relationValueOf grp) rt hrt hnd

theorem mapRelationalResult_eq (m : ModelSchema)
    (relations : List RelationDescriptor) (includes : List String)
    (rows : List Row) (pk : FieldDescriptor)
    (rels : List (RelationDescriptor × FieldDescriptor))
    (hpk : getPrimaryKeyInfo m = some pk)
    (hres : resolveRels (relations.filter
      (fun r => includes.contains r.propertyKey)) = some rels) :
    mapRelationalResult m relations includes rows
      = .ok ((firstSeen (rows.map (fun row => rowGet row (rootPkKey m pk)))).map
          (fun v => buildMapped m rels (v, rowsOfGroup rows (rootPkKey m pk) v))) := by
  simp only [mapRelationalResult, hpk, hres, groupRows_eq, List.map_map]
  rfl

/-! ### Characterizing `getValues` -/

theorem fieldsMapM_ok_iff (fs : List FieldDescriptor)
    (val : FieldDescriptor → Value) (out : List (String × Value)) :
    fs.mapM (fun f => (materializeField f (val f)).map (fun v => (f.name, v)))
        = .ok out ↔
      ((∀ f ∈ fs, ∃ w, materializeField f (val f) = .ok w) ∧
        out = fs.map (fun f => (f.name, matValue f (val f)))) := by
  induction fs generalizing out with
  | nil =>
    constructor
    · intro h
      have hout : out = [] := by
        have h' : (Except.ok [] : Except ModelError (List (String × Value)))
            = .ok out := h
        cases h'
        rfl
      exact ⟨by simp, by simp [hout]⟩
    · rintro ⟨-, rfl⟩
      rfl
  | cons f rest ih =>
    rw [List.mapM_cons]
    cases hf : materializeField f (val f) with
    | error e =>
      constructor
      · intro h
        replace h : (Except.error e : Except ModelError (List (String × Value)))
            = .ok out := h
        cases h
      · rintro ⟨hall, -⟩
        obtain ⟨w, hw⟩ := hall f (List.mem_cons_self f rest)
        rw [hf] at hw
        cases hw
    | ok w =>
      have hmat : matValue f (val f) = w := by
        rw [matValue, hf]
      constructor
      · intro h
        replace h : rest.mapM (fun f => (materializeField f (val f)).map
            (fun v => (f.name, v))) >>= (fun ys => pure ((f.name, w) :: ys))
            = .ok out := h
        cases hrest : rest.mapM (fun f => (materializeField f (val f)).map
            (fun v => (f.name, v))) with
        | error e =>
          rw [hrest] at h
          cases h
        | ok ys =>
          rw [hrest] at h
          have hout : out = (f.name, w) :: ys := by
            have h' : (Except.ok ((f.name, w) :: ys) :
                Except ModelError (List (String × Value))) = .ok out := h
            cases h'
            rfl
          obtain ⟨hall, hys⟩ := (ih ys).mp hrest
          refine ⟨?_, ?_⟩
          · intro g hg
            rw [List.mem_cons] at hg
            rcases hg with rfl | hg
            · exact ⟨w, hf⟩
            · exact hall g hg
          · rw [hout, hys, List.map_cons, hmat]
      · rintro ⟨hall, rfl⟩
        have hrest : rest.mapM (fun f => (materializeField f (val f)).map
            (fun v => (f.name, v)))
            = .ok (rest.map (fun f => (f.name, matValue f (val f)))) :=
          (ih _).mpr ⟨fun g hg => hall g (List.mem_cons_of_mem f hg), rfl⟩
        show rest.mapM (fun f => (materializeField f (val f)).map
            (fun v => (f.name, v))) >>= (fun ys => pure ((f.name, w) :: ys)) = _
        rw [hrest]
        show Except.ok ((f.name, w) :: _) = _
        rw [List.map_cons, hmat]

theorem getValues_ok_iff (inst : ModelInstance) (filter? : Option (List String))
    (vals : List (String × Value)) :
    getValues inst filter? = .ok vals ↔
      ((∀ f ∈ selectedFields inst.schema filter?, ∃ w,
          materializeField f (getField inst f.propertyKey) = .ok w) ∧
        vals = (selectedFields inst.schema filter?).map
          (fun f => (f.name, matValue f (getField inst f.propertyKey)))) := by
  rw [getValues]
  exact fieldsMapM_ok_iff (selectedFields inst.schema filter?)
    (fun f => getField inst f.propertyKey) vals

/-! ### Materialization and field-update lemmas -/

theorem materializeField_defined (f : FieldDescriptor) (v : Value)
    (h : v ≠ .vUndefined) : materializeField f v = .ok v := by
  rw [materializeField, if_neg h]

theorem materializeField_default (f : FieldDescriptor) (d : Value)
    (hd : f.defaultValue = some d) :
    materializeField f .vUndefined = .ok d := by
  rw [materializeField, if_pos rfl, hd]

theorem materializeField_nullable (f : FieldDescriptor)
    (hd : f.defaultValue = none) (hn : f.isNullable = true) :
    materializeField f .vUndefined = .ok .vNull := by
  rw [materializeField, if_pos rfl, hd, if_pos hn]

theorem materializeField_required (f : FieldDescriptor)
    (hd : f.defaultValue = none) (hn : f.isNullable = false) :
    materializeField f .vUndefined
      = .error (.validationError (emptyFieldMessage f.propertyKey)) := by
  rw [materializeField, if_pos rfl, hd, hn]
  rfl

theorem getField_setField (inst : ModelInstance) (k : String) (v : Value)
    (p : String) :
    getField (setField inst k v) p = if p = k then v else getField inst p := by
  show rowGet (setAssoc inst.values k v) p = _
  rw [rowGet, alookup_setAssoc]
  by_cases h : p = k <;> simp [h, rowGet, getField]

theorem normalizeValue_idem (t : FieldType) (v : Value) :
    normalizeValue t (normalizeValue t v) = normalizeValue t v := by
  cases t <;> cases v <;> try rfl
  case number.vStr s =>
    cases h : parseIntString s <;> simp [normalizeValue, h]
  case boolean.vNum n =>
    by_cases h0 : n = 0
    · subst h0
      rfl
    · by_cases h1 : n = 1
      · subst h1
        rfl
      · simp [normalizeValue, h0, h1]

/-! ### The in-place normalization fold -/

theorem alookup_normFold_notMem (fields : List FieldDescriptor)
    (vs : List (String × Value)) (p : String)
    (hp : p ∉ fields.map (fun f => f.propertyKey)) :
    alookup (fields.foldl (fun vs f => setAssoc vs f.propertyKey
      (normalizeValue f.type ((alookup vs f.propertyKey).getD .vUndefined))) vs) p
      = alookup vs p := by
  induction fields generalizing vs with
  | nil => rfl
  | cons f rest ih =>
    rw [List.map_cons, List.mem_cons] at hp
    push_neg at hp
    rw [List.foldl_cons, ih _ hp.2, alookup_setAssoc, if_neg hp.1]

theorem alookup_normFold_mem (fields : List FieldDescriptor)
    (vs : List (String × Value)) (f : FieldDescriptor) (hf : f ∈ fields)
    (hnd : (fields.map (fun g => g.propertyKey)).Nodup) :
    alookup (fields.foldl (fun vs g => setAssoc vs g.propertyKey
      (normalizeValue g.type ((alookup vs g.propertyKey).getD .vUndefined))) vs)
        f.propertyKey
      = some (normalizeValue f.type
          ((alookup vs f.propertyKey).getD .vUndefined)) := by
  induction fields generalizing vs with
  | nil => simp at hf
  | cons g rest ih =>
    rw [List.map_cons, List.nodup_cons] at hnd
    rw [List.mem_cons] at hf
    rcases hf with rfl | hf
    · rw [List.foldl_cons,
        alookup_normFold_notMem rest _ f.propertyKey hnd.1,
        alookup_setAssoc, if_pos rfl]
    · have hne : f.propertyKey ≠ g.propertyKey := by
        intro he
        exact hnd.1 (he ▸ List.mem_map_of_mem (fun x => x.propertyKey) hf)
      rw [List.foldl_cons, ih _ hf hnd.2, alookup_setAssoc, if_neg hne]

theorem normFold_fixed (fields : List FieldDescriptor)
    (vs : List (String × Value))
    (h : ∀ f ∈ fields, ∃ x, alookup vs f.propertyKey = some x ∧
      normalizeValue f.type x = x) :
    fields.foldl (fun vs f => setAssoc vs f.propertyKey
      (normalizeValue f.type ((alookup vs f.propertyKey).getD .vUndefined))) vs
      = vs := by
  induction fields with
  | nil => rfl
  | cons f rest ih =>
    obtain ⟨x, hx, hfix⟩ := h f (List.mem_cons_self f rest)
    have hstep : setAssoc vs f.propertyKey
        (normalizeValue f.type ((alookup vs f.propertyKey).getD .vUndefined))
        = vs := by
      rw [hx]
      show setAssoc vs f.propertyKey (normalizeValue f.type x) = vs
      rw [hfix]
      exact setAssoc_eq_self vs f.propertyKey x hx
    rw [List.foldl_cons, hstep,
      ih (fun g hg => h g (List.mem_cons_of_mem f hg))]

theorem normalizeModel_schema (inst : ModelInstance) :
    (normalizeModel inst).schema = inst.schema := rfl

theorem normalizeModel_saved (inst : ModelInstance) :
    (normalizeModel inst).saved = inst.saved := rfl

theorem normalizeModel_original (inst : ModelInstance) :
    (normalizeModel inst).original = inst.original := rfl

theorem normalizeModel_values (inst : ModelInstance) :
    (normalizeModel inst).values
      = inst.schema.fields.foldl (fun vs f => setAssoc vs f.propertyKey
          (normalizeValue f.type ((alookup vs f.propertyKey).getD .vUndefined)))
        inst.values := rfl

theorem normalizeModel_idem (inst : ModelInstance)
    (hnd : (inst.schema.fields.map (fun f => f.propertyKey)).Nodup) :
    normalizeModel (normalizeModel inst) = normalizeModel inst := by
  ext1
  · rfl
  · rw [normalizeModel_values (normalizeModel inst), normalizeModel_schema]
    refine normFold_fixed _ _ ?_
    intro f hf
    refine ⟨normalizeValue f.type
      ((alookup inst.values f.propertyKey).getD .vUndefined), ?_, ?_⟩
    · rw [normalizeModel_values inst]
      exact alookup_normFold_mem inst.schema.fields inst.values f hf hnd
    · exact normalizeValue_idem f.type _
  · rfl
  · rfl

theorem getField_normalizeModel_mem (inst : ModelInstance) (f : FieldDescriptor)
    (hf : f ∈ inst.schema.fields)
    (hnd : (inst.schema.fields.map (fun g => g.propertyKey)).Nodup) :
    getField (normalizeModel inst) f.propertyKey
      = normalizeValue f.type (getField inst f.propertyKey) := by
  show rowGet (normalizeModel inst).values _ = _
  rw [rowGet, normalizeModel_values,
    alookup_normFold_mem inst.schema.fields inst.values f hf hnd]
  rfl

theorem getField_normalizeModel_notMem (inst : ModelInstance) (p : String)
    (hp : p ∉ inst.schema.fields.map (fun f => f.propertyKey)) :
    getField (normalizeModel inst) p = getField inst p := by
  show rowGet (normalizeModel inst).values _ = _
  rw [rowGet, normalizeModel_values,
    alookup_normFold_notMem inst.schema.fields inst.values p hp]
  rfl

/-! ### State-tracking lemmas -/

theorem setSaved_true (inst : ModelInstance) (vals : List (String × Value))
    (h : getValues inst none = .ok vals) :
    setSaved inst true = .ok { inst with saved := true, original := some vals } := by
  rw [setSaved, if_pos rfl, h]
  rfl

theorem setSaved_false (inst : ModelInstance) :
    setSaved inst false = .ok { inst with saved := false, original := none } := rfl

theorem compareWithOriginal_none (inst : ModelInstance)
    (h : inst.original = none) : compareWithOriginal inst = .ok ⟨true, []⟩ := by
  rw [compareWithOriginal, h]

theorem compareWithOriginal_some (inst : ModelInstance)
    (snap vals : List (String × Value)) (h : inst.original = some snap)
    (hv : getValues inst none = .ok vals) :
    compareWithOriginal inst = .ok
      ⟨!((inst.schema.fields.filter (fun f =>
          decide (alookup vals f.name ≠ alookup snap f.name))).map
            (fun f => f.propertyKey)).isEmpty,
        (inst.schema.fields.filter (fun f =>
          decide (alookup vals f.name ≠ alookup snap f.name))).map
            (fun f => f.propertyKey)⟩ := by
  rw [compareWithOriginal, h, hv]
  rfl

theorem range_length (a b : Int) : (range a b).length = (b - a + 1).toNat := by
  rw [range, List.length_map, List.length_range]

theorem range_getD (a b : Int) (i : Nat) (h : i < (b - a + 1).toNat) :
    (range a b).getD i 0 = a + i := by
  rw [range, List.getD_eq_getElem?_getD, List.getElem?_map, List.getElem?_range h]
  rfl

theorem zip_getD {α β : Type} (da : α) (db : β) (l : List α) (l2 : List β)
    (i : Nat) (h1 : i < l.length) (h2 : i < l2.length) :
    (l.zip l2).getD i (da, db) = (l.getD i da, l2.getD i db) := by
  induction l generalizing l2 i with
  | nil => simp at h1
  | cons a rest ih =>
    cases l2 with
    | nil => simp at h2
    | cons b rest2 =>
      cases i with
      | zero => rfl
      | succ j =>
        simp only [List.zip_cons_cons, List.getD_cons_succ]
        exact ih rest2 j (by simpa using h1) (by simpa using h2)

theorem getValues_setField (inst : ModelInstance) (k : String) (v : Value)
    (filter? : Option (List String)) (vals : List (String × Value))
    (hv : v ≠ .vUndefined) (h : getValues inst filter? = .ok vals) :
    ∃ vals2, getValues (setField inst k v) filter? = .ok vals2 := by
  obtain ⟨hall, -⟩ := (getValues_ok_iff inst filter? vals).mp h
  refine ⟨_, (getValues_ok_iff (setField inst k v) filter? _).mpr ⟨?_, rfl⟩⟩
  intro f hf
  rw [getField_setField]
  by_cases hk : f.propertyKey = k
  · rw [if_pos hk]
    exact ⟨v, materializeField_defined f v hv⟩
  · rw [if_neg hk]
    exact hall f hf

/-! ### The claims -/

/-- C9: for every single row and model, `extractRelationalRecord` returns a
flat object with exactly the model's declared fields keyed by propertyKey,
reading each field's namespaced key off the row and ignoring all columns
that are not one of the model's namespaced keys; in particular the test row
with mixed `users__`/`products__` columns yields `{id:1, email:"a@b.com",
age:16}` for `User` and `{id:2, title:"Spoon"}` for `Product`. -/
theorem extract_record_exact_fields :
    (∀ (row1 row2 : Row) (m : ModelSchema),
      (∀ f ∈ m.fields,
        rowGet row1 (extractReadKey m f) = rowGet row2 (extractReadKey m f)) →
      extractRelationalRecord row1 m = extractRelationalRecord row2 m) ∧
    (∀ (row : Row) (m : ModelSchema),
      (extractRelationalRecord row m).map Prod.fst
        = m.fields.map (fun f => f.propertyKey)) ∧
    (∀ (row : Row) (m : ModelSchema) (f : FieldDescriptor), f ∈ m.fields →
      (m.fields.map (fun g => g.propertyKey)).Nodup →
      alookup (extractRelationalRecord row m) f.propertyKey
        = some (rowGet row (extractReadKey m f))) ∧
    extractRelationalRecord extractTestRow UserSchema
      = [("id", .vNum 1), ("email", .vStr "a@b.com"), ("age", .vNum 16)] ∧
    extractRelationalRecord extractTestRow ProductSchema
      = [("id", .vNum 2), ("title", .vStr "Spoon")] := by
  refine ⟨?_, ?_, ?_, ?_, ?_⟩
  · intro row1 row2 m h
    exact List.map_congr_left (fun f hf => by rw [h f hf])
  · intro row m
    rw [extractRelationalRecord, List.map_map]
    rfl
  · intro row m f hf hnd
    exact alookup_extract row m f hf hnd
  · rfl
  · rfl

/-- C3 counterexample: the claim that the namespaced select alias of
`find`/`findOne` equals the namespaced key `extractRelationalRecord` reads
fails on the `User` fixture's `age` field (column name `my_age`): the query
aliases `users__my_age` while extraction reads `users__age`. -/
theorem alias_key_mismatch_on_age :
    ageField ∈ UserSchema.fields ∧
    selectAliasKey UserSchema ageField = "users__my_age" ∧
    extractReadKey UserSchema ageField = "users__age" ∧
    selectAliasKey UserSchema ageField ≠ extractReadKey UserSchema ageField := by
  refine ⟨by simp [UserSchema], rfl, rfl, by decide⟩

/-- C3 amended: the row-key construction of `find`/`findOne` and the row-key
parsing of `extractRelationalRecord` coincide exactly on fields whose
configured column name equals their propertyKey; they differ on `User`'s
`age` field (`users__my_age` versus `users__age`), so the conventions are
not identical end-to-end. -/
theorem alias_key_matches_iff_name_eq_key :
    (∀ (m : ModelSchema) (f : FieldDescriptor),
      f.name = f.propertyKey → selectAliasKey m f = extractReadKey m f) ∧
    selectAliasKey UserSchema ageField ≠ extractReadKey UserSchema ageField := by
  constructor
  · intro m f h
    rw [selectAliasKey, extractReadKey, h]
  · decide

theorem materializeField_error_elim (f : FieldDescriptor) (v : Value)
    (e : ModelError) (h : materializeField f v = .error e) :
    v = .vUndefined ∧ f.defaultValue = none ∧ f.isNullable = false ∧
      e = .validationError (emptyFieldMessage f.propertyKey) := by
  by_cases hv : v = .vUndefined
  · subst hv
    cases hd : f.defaultValue with
    | some d =>
      rw [materializeField_default f d hd] at h
      cases h
    | none =>
      cases hn : f.isNullable with
      | true =>
        rw [materializeField_nullable f hd hn] at h
        cases h
      | false =>
        rw [materializeField_required f hd hn] at h
        cases h
        exact ⟨rfl, rfl, rfl, rfl⟩
  · rw [materializeField_defined f v hv] at h
    cases h

/-- C8: `getValues` substitutes the declared default for an undefined field,
else `null` when the field is nullable, else fails with a ValidationError
naming the offending propertyKey; every returned key is the field's column
name, whatever propertyKey filter is supplied.  The four `getValues` test
fixtures are reproduced at the end. -/
theorem getValues_substitution_and_keys :
    (∀ (inst : ModelInstance) (filter? : Option (List String)),
      ((∀ f ∈ selectedFields inst.schema filter?,
          getField inst f.propertyKey = .vUndefined →
          f.defaultValue = none → f.isNullable = true) →
        ∃ vals, getValues inst filter? = .ok vals ∧
          vals.map Prod.fst
            = (selectedFields inst.schema filter?).map (fun f => f.name) ∧
          ((((selectedFields inst.schema filter?).map (fun f => f.name)).Nodup) →
            ∀ f ∈ selectedFields inst.schema filter?,
              getField inst f.propertyKey = .vUndefined →
              alookup vals f.name = some (f.defaultValue.getD .vNull))) ∧
      ((∃ f ∈ selectedFields inst.schema filter?,
          getField inst f.propertyKey = .vUndefined ∧
          f.defaultValue = none ∧ f.isNullable = false) →
        ∃ p, getValues inst filter?
            = .error (.validationError (emptyFieldMessage p)) ∧
          ∃ f ∈ selectedFields inst.schema filter?, f.propertyKey = p ∧
            getField inst f.propertyKey = .vUndefined ∧
            f.defaultValue = none ∧ f.isNullable = false)) ∧
    getValues (blankInstance DefaultSchema) none = .ok [("name", .vStr "john")] ∧
    getValues (blankInstance NullableSchema) none = .ok [("name", .vNull)] ∧
    getValues (blankInstance RequiredSchema) none
      = .error (.validationError (emptyFieldMessage "name")) ∧
    emptyFieldMessage "name" = "Field " ++ "'" ++ "name" ++ "'" ++
      " cannot be empty!" ∧
    getValues namedJohn none = .ok [("full_name", .vStr "john")] ∧
    getValues namedJohn (some ["name"]) = .ok [("full_name", .vStr "john")] := by
  refine ⟨?_, rfl, rfl, rfl, rfl, rfl, rfl⟩
  intro inst filter?
  constructor
  · intro hgood
    have hall : ∀ f ∈ selectedFields inst.schema filter?, ∃ w,
        materializeField f (getField inst f.propertyKey) = .ok w := by
      intro f hf
      by_cases hv : getField inst f.propertyKey = .vUndefined
      · cases hd : f.defaultValue with
        | some d => exact ⟨d, hv ▸ materializeField_default f d hd⟩
        | none =>
          exact ⟨.vNull, hv ▸ materializeField_nullable f hd (hgood f hf hv hd)⟩
      · exact ⟨_, materializeField_defined f _ hv⟩
    refine ⟨_, (getValues_ok_iff inst filter? _).mpr ⟨hall, rfl⟩, ?_, ?_⟩
    · rw [List.map_map]
      rfl
    · intro hnn f hf hv
      rw [alookup_map_key (selectedFields inst.schema filter?)
        (fun g => g.name) (fun g => matValue g (getField inst g.propertyKey))
        f hf hnn]
      rw [hv]
      cases hd : f.defaultValue with
      | some d =>
        rw [matValue, materializeField_default f d hd]
        rfl
      | none =>
        rw [matValue, materializeField_nullable f hd (hgood f hf hv hd)]
        rfl
  · intro hbad
    have hbad' : ∃ f ∈ selectedFields inst.schema filter?, ∃ e,
        (materializeField f (getField inst f.propertyKey)).map
          (fun v => (f.name, v)) = .error e := by
      obtain ⟨f, hf, hv, hd, hn⟩ := hbad
      refine ⟨f, hf, .validationError (emptyFieldMessage f.propertyKey), ?_⟩
      rw [hv, materializeField_required f hd hn]
      rfl
    obtain ⟨f, hf, e, he, hm⟩ := mapM_error_of_exists _ _ hbad'
    have herr : materializeField f (getField inst f.propertyKey) = .error e := by
      cases hmat : materializeField f (getField inst f.propertyKey) with
      | error e2 =>
        rw [hmat] at he
        cases he
        rfl
      | ok w =>
        rw [hmat] at he
        cases he
    obtain ⟨hv, hd, hn, hee⟩ := materializeField_error_elim f _ e herr
    refine ⟨f.propertyKey, ?_, f, hf, rfl, hv, hd, hn⟩
    rw [getValues, hm, hee]

theorem filter_key_eq_single {α : Type} (l : List α) (key : α → String) (x : α)
    (hx : x ∈ l) (hnd : (l.map key).Nodup) :
    l.filter (fun a => decide (key a = key x)) = [x] := by
  induction l with
  | nil => simp at hx
  | cons a rest ih =>
    rw [List.map_cons, List.nodup_cons] at hnd
    rw [List.mem_cons] at hx
    by_cases h : key a = key x
    · have hxa : x = a := by
        rcases hx with hx | hx
        · exact hx
        · exact absurd (h ▸ List.mem_map_of_mem key hx) hnd.1
      subst hxa
      rw [List.filter_cons_of_pos (by simpa using h)]
      have hnone : rest.filter (fun a => decide (key a = key x)) = [] := by
        refine List.filter_eq_nil_iff.mpr ?_
        intro b hb hdec
        have hbx : key b = key x := of_decide_eq_true hdec
        have hm : key b ∈ rest.map key := List.mem_map_of_mem key hb
        rw [hbx, ← h] at hm
        exact hnd.1 hm
      rw [hnone]
    · have hx' : x ∈ rest := by
        rcases hx with hx | hx
        · exact absurd (hx ▸ rfl) h
        · exact hx
      rw [List.filter_cons_of_neg (by simpa using h)]
      exact ih hx' hnd.2

theorem nodup_key_inj {α : Type} (l : List α) (key : α → String) (x y : α)
    (hx : x ∈ l) (hy : y ∈ l) (hnd : (l.map key).Nodup)
    (hkey : key x = key y) : x = y := by
  have h1 := find?_key_eq l key x hx hnd
  have h2 := find?_key_eq l key y hy hnd
  rw [show (fun a => decide (key a = key x)) = (fun a => decide (key a = key y))
    from funext (fun a => by rw [hkey])] at h1
  rw [h1] at h2
  cases h2
  rfl

/-- Mutating one declared field of a freshly-snapshotted instance to a
different defined value makes exactly that field dirty. -/
theorem compare_mutation_aux (inst : ModelInstance)
    (vals : List (String × Value)) (f : FieldDescriptor) (v2 : Value)
    (hkeys : (inst.schema.fields.map (fun g => g.propertyKey)).Nodup)
    (hnames : (inst.schema.fields.map (fun g => g.name)).Nodup)
    (hv : getValues inst none = .ok vals)
    (hf : f ∈ inst.schema.fields)
    (hdef : getField inst f.propertyKey ≠ .vUndefined)
    (hv2 : v2 ≠ .vUndefined) (hne : v2 ≠ getField inst f.propertyKey)
    (i1 : ModelInstance) (hsch : i1.schema = inst.schema)
    (hvalues : i1.values = inst.values) (horig : i1.original = some vals) :
    compareWithOriginal (setField i1 f.propertyKey v2)
      = .ok ⟨true, [f.propertyKey]⟩ := by
  obtain ⟨hall, hvals⟩ := (getValues_ok_iff inst none vals).mp hv
  have hgeti1 : ∀ p, getField i1 p = getField inst p := by
    intro p
    rw [getField, getField, hvalues]
  have hget : ∀ p, getField (setField i1 f.propertyKey v2) p
      = if p = f.propertyKey then v2 else getField inst p := by
    intro p
    rw [getField_setField, hgeti1 p]
  have hsch2 : (setField i1 f.propertyKey v2).schema = inst.schema := hsch
  have hsel : selectedFields (setField i1 f.propertyKey v2).schema none
      = inst.schema.fields := by
    rw [selectedFields, hsch2]
  have hall2 : ∀ g ∈ selectedFields (setField i1 f.propertyKey v2).schema none,
      ∃ w, materializeField g
        (getField (setField i1 f.propertyKey v2) g.propertyKey) = .ok w := by
    intro g hg
    rw [hget g.propertyKey]
    by_cases hgp : g.propertyKey = f.propertyKey
    · rw [if_pos hgp]
      exact ⟨v2, materializeField_defined g v2 hv2⟩
    · rw [if_neg hgp]
      rw [hsel] at hg
      exact hall g hg
  have hv2ok : getValues (setField i1 f.propertyKey v2) none
      = .ok ((selectedFields (setField i1 f.propertyKey v2).schema none).map
        (fun g => (g.name, matValue g
          (getField (setField i1 f.propertyKey v2) g.propertyKey)))) :=
    (getValues_ok_iff _ none _).mpr ⟨hall2, rfl⟩
  have horig2 : (setField i1 f.propertyKey v2).original = some vals := horig
  rw [compareWithOriginal_some _ vals _ horig2 hv2ok]
  have hpoint : ∀ g ∈ (setField i1 f.propertyKey v2).schema.fields,
      (decide (alookup ((selectedFields (setField i1 f.propertyKey v2).schema
          none).map (fun g => (g.name, matValue g
            (getField (setField i1 f.propertyKey v2) g.propertyKey)))) g.name
        ≠ alookup vals g.name))
      = decide (g.propertyKey = f.propertyKey) := by
    intro g hg
    rw [hsch2] at hg
    have hlook2 : alookup ((selectedFields (setField i1 f.propertyKey v2).schema
        none).map (fun g => (g.name, matValue g
          (getField (setField i1 f.propertyKey v2) g.propertyKey)))) g.name
        = some (matValue g
          (getField (setField i1 f.propertyKey v2) g.propertyKey)) := by
      rw [hsel]
      exact alookup_map_key _ (fun x => x.name)
        (fun x => matValue x (getField (setField i1 f.propertyKey v2)
          x.propertyKey)) g hg hnames
    have hlookv : alookup vals g.name
        = some (matValue g (getField inst g.propertyKey)) := by
      rw [hvals]
      exact alookup_map_key _ (fun x => x.name)
        (fun x => matValue x (getField inst x.propertyKey)) g hg hnames
    rw [hlook2, hlookv, hget g.propertyKey]
    by_cases hgp : g.propertyKey = f.propertyKey
    · rw [if_pos hgp]
      have hgf : g = f := nodup_key_inj inst.schema.fields
        (fun x => x.propertyKey) g f hg hf hkeys hgp
      subst hgf
      rw [matValue, materializeField_defined g v2 hv2,
        matValue, materializeField_defined g _ hdef]
      simp [hne]
    · rw [if_neg hgp]
      simp [hgp]
  rw [show (setField i1 f.propertyKey v2).schema.fields = inst.schema.fields
      from congrArg ModelSchema.fields hsch2] at hpoint ⊢
  rw [List.filter_congr hpoint,
    filter_key_eq_single inst.schema.fields (fun x => x.propertyKey) f hf hkeys]
  rfl

/-- C7: the `compareWithOriginal` lifecycle.  With no snapshot the result is
`{isDirty: true, changedFields: []}`; right after a successful
`setSaved(inst, true)` it is `{isDirty: false, changedFields: []}`; after
then mutating exactly one declared field to a different defined value it is
`{isDirty: true, changedFields: [that propertyKey]}`; and after
`setSaved(_, false)` it reverts to `{isDirty: true, changedFields: []}`. -/
theorem compareWithOriginal_lifecycle (inst : ModelInstance)
    (hkeys : (inst.schema.fields.map (fun f => f.propertyKey)).Nodup)
    (hnames : (inst.schema.fields.map (fun f => f.name)).Nodup) :
    (inst.original = none → compareWithOriginal inst = .ok ⟨true, []⟩) ∧
    (∀ inst1, setSaved inst true = .ok inst1 →
      compareWithOriginal inst1 = .ok ⟨false, []⟩) ∧
    (∀ inst1 (f : FieldDescriptor) (v2 : Value),
      setSaved inst true = .ok inst1 → f ∈ inst.schema.fields →
      getField inst f.propertyKey ≠ .vUndefined → v2 ≠ .vUndefined →
      v2 ≠ getField inst f.propertyKey →
      compareWithOriginal (setField inst1 f.propertyKey v2)
        = .ok ⟨true, [f.propertyKey]⟩) ∧
    (∀ inst2 inst3 : ModelInstance, setSaved inst2 false = .ok inst3 →
      compareWithOriginal inst3 = .ok ⟨true, []⟩) := by
  have hsetSaved : ∀ inst1, setSaved inst true = .ok inst1 →
      ∃ vals, getValues inst none = .ok vals ∧
        inst1 = ModelInstance.mk inst.schema inst.values true (some vals) := by
    intro inst1 h
    rw [setSaved, if_pos rfl] at h
    cases hv : getValues inst none with
    | error e =>
      rw [hv] at h
      cases h
    | ok vals =>
      rw [hv] at h
      refine ⟨vals, rfl, ?_⟩
      have h2 : (Except.ok
          (ModelInstance.mk inst.schema inst.values true (some vals)) :
          Except ModelError ModelInstance) = .ok inst1 := h
      cases h2
      rfl
  refine ⟨?_, ?_, ?_, ?_⟩
  · exact compareWithOriginal_none inst
  · intro inst1 h
    obtain ⟨vals, hv, rfl⟩ := hsetSaved inst1 h
    have hv1 : getValues
        (ModelInstance.mk inst.schema inst.values true (some vals)) none
        = .ok vals := hv
    rw [compareWithOriginal_some _ vals vals rfl hv1]
    have hnil : (ModelInstance.mk inst.schema inst.values true
        (some vals)).schema.fields.filter
        (fun f => decide (alookup vals f.name ≠ alookup vals f.name)) = [] := by
      refine List.filter_eq_nil_iff.mpr ?_
      intro f hf hdec
      exact absurd rfl (of_decide_eq_true hdec)
    rw [hnil]
    rfl
  · intro inst1 f v2 h hf hdef hv2 hne
    obtain ⟨vals, hv, rfl⟩ := hsetSaved inst1 h
    exact compare_mutation_aux inst vals f v2 hkeys hnames hv hf hdef hv2 hne
      _ rfl rfl rfl
  · intro inst2 inst3 h
    have h2 : (Except.ok
        (ModelInstance.mk inst2.schema inst2.values false none) :
        Except ModelError ModelInstance) = .ok inst3 := h
    cases h2
    exact compareWithOriginal_none _ rfl

/-- C7 witness: the lifecycle evaluated on the `User` fixture of the test at
`src/utils/models_test.ts` lines 373-400: unsaved, then `setSaved(true)`,
then `email` mutated to `"b@c.com"`, then `setSaved(false)`. -/
theorem compareWithOriginal_lifecycle_witness :
    compareWithOriginal testUser = .ok ⟨true, []⟩ ∧
    compareWithOriginal savedTestUser = .ok ⟨false, []⟩ ∧
    compareWithOriginal (setField savedTestUser "email" (.vStr "b@c.com"))
      = .ok ⟨true, ["email"]⟩ ∧
    compareWithOriginal (ModelInstance.mk UserSchema
      (setField savedTestUser "email" (.vStr "b@c.com")).values false none)
      = .ok ⟨true, []⟩ := by
  obtain ⟨h1, h2, h3, h4⟩ :=
    compareWithOriginal_lifecycle testUser (by decide) (by decide)
  have hs : setSaved testUser true = .ok savedTestUser := by rfl
  refine ⟨h1 rfl, h2 savedTestUser hs, ?_, ?_⟩
  · exact h3 savedTestUser emailField (.vStr "b@c.com") hs (by decide)
      (by decide) (by decide) (by decide)
  · exact h4 (setField savedTestUser "email" (.vStr "b@c.com")) _ (by rfl)

theorem getD_map_lt {α β : Type} (l : List α) (f : α → β) (i : Nat)
    (h : i < l.length) (d1 : α) (d2 : β) :
    (l.map f).getD i d2 = f (l.getD i d1) := by
  induction l generalizing i with
  | nil => simp at h
  | cons a rest ih =>
    cases i with
    | zero => rfl
    | succ j =>
      simp only [List.map_cons, List.getD_cons_succ]
      exact ih j (by simpa using h)

/-- The resolved relation pair of an included relation. -/
theorem mem_resolved (relations : List RelationDescriptor)
    (includes : List String) (r : RelationDescriptor) (tpk : FieldDescriptor)
    (rels : List (RelationDescriptor × FieldDescriptor))
    (hres : resolveRels (relations.filter
      (fun x => includes.contains x.propertyKey)) = some rels)
    (hr : r ∈ relations) (hin : includes.contains r.propertyKey = true)
    (htpk : getPrimaryKeyInfo r.target = some tpk) :
    (r, tpk) ∈ rels := by
  obtain ⟨hfst, hres2⟩ := resolveRels_spec _ rels hres
  have hrin : r ∈ relations.filter (fun x => includes.contains x.propertyKey) :=
    List.mem_filter.mpr ⟨hr, hin⟩
  rw [← hfst] at hrin
  obtain ⟨rt, hrt, hrteq⟩ := List.mem_map.mp hrin
  have h2 := hres2 rt hrt
  rw [hrteq, htpk] at h2
  have h3 : rt = (r, tpk) := Prod.ext hrteq (by
    have h4 : some tpk = some rt.2 := h2
    cases h4
    rfl)
  rw [← h3]
  exact hrt

theorem rels_key_nodup (relations : List RelationDescriptor)
    (includes : List String)
    (rels : List (RelationDescriptor × FieldDescriptor))
    (hres : resolveRels (relations.filter
      (fun x => includes.contains x.propertyKey)) = some rels)
    (hrnd : ((relations.filter (fun x => includes.contains x.propertyKey)).map
      (fun x => x.propertyKey)).Nodup) :
    (rels.map (fun x => x.1.propertyKey)).Nodup := by
  obtain ⟨hfst, -⟩ := resolveRels_spec _ rels hres
  have h : rels.map (fun x => x.1.propertyKey)
      = (rels.map Prod.fst).map (fun x => x.propertyKey) := by
    rw [List.map_map]
    rfl
  rw [h, hfst]
  exact hrnd

/-- C1: `mapRelationalResult` with an included HasMany relation groups the
rows by the root's namespaced primary-key value in first-seen order (the
emitted roots carry exactly the distinct key values, in order); within each
group every row whose related primary-key column is null contributes no
entry, the non-null rows are appended in row order with no deduplication
(the relation value is exactly the group's row list filtered of null keys
and mapped through extraction), and a group consisting only of null-keyed
relation rows yields the empty sequence `many []` — never a null relation
value and never a placeholder record. -/
theorem mapRelationalResult_hasMany_grouping (m : ModelSchema)
    (relations : List RelationDescriptor) (includes : List String)
    (rows : List Row) (pk tpk : FieldDescriptor) (r : RelationDescriptor)
    (rels : List (RelationDescriptor × FieldDescriptor))
    (hpk : getPrimaryKeyInfo m = some pk)
    (hkeys : (m.fields.map (fun f => f.propertyKey)).Nodup)
    (hres : resolveRels (relations.filter
      (fun x => includes.contains x.propertyKey)) = some rels)
    (hrnd : ((relations.filter (fun x => includes.contains x.propertyKey)).map
      (fun x => x.propertyKey)).Nodup)
    (hr : r ∈ relations) (hin : includes.contains r.propertyKey = true)
    (hty : r.type = .hasMany)
    (htpk : getPrimaryKeyInfo r.target = some tpk) :
    ∃ out, mapRelationalResult m relations includes rows = .ok out ∧
      out.map (fun rec => alookup rec.base pk.propertyKey)
        = (firstSeen (rows.map (fun row => rowGet row (rootPkKey m pk)))).map
            some ∧
      out.length = (firstSeen (rows.map
        (fun row => rowGet row (rootPkKey m pk)))).length ∧
      (∀ i, i < out.length →
        alookup (out.getD i default).rels r.propertyKey
          = some (.many ((rowsOfGroup rows (rootPkKey m pk)
              ((firstSeen (rows.map (fun row => rowGet row (rootPkKey m pk)))).getD
                i .vUndefined)).filterMap (fun row =>
            if rowGet row (rootPkKey r.target tpk) = .vNull then none
            else some (extractRelationalRecord row r.target))))) ∧
      (∀ i, i < out.length →
        (∀ row ∈ rowsOfGroup rows (rootPkKey m pk)
            ((firstSeen (rows.map (fun row => rowGet row (rootPkKey m pk)))).getD
              i .vUndefined),
          rowGet row (rootPkKey r.target tpk) = .vNull) →
        alookup (out.getD i default).rels r.propertyKey = some (.many [])) := by
  have hmre := mapRelationalResult_eq m relations includes rows pk rels hpk hres
  have hpkmem : pk ∈ m.fields := List.mem_of_find?_eq_some hpk
  have hrtmem : (r, tpk) ∈ rels :=
    mem_resolved relations includes r tpk rels hres hr hin htpk
  have hrelnd : (rels.map (fun x => x.1.propertyKey)).Nodup :=
    rels_key_nodup relations includes rels hres hrnd
  have hlen : ((firstSeen (rows.map (fun row => rowGet row (rootPkKey m pk)))).map
      (fun v => buildMapped m rels (v, rowsOfGroup rows (rootPkKey m pk) v))).length
      = (firstSeen (rows.map (fun row => rowGet row (rootPkKey m pk)))).length :=
    List.length_map _ _
  have hmain : ∀ i, i < (firstSeen (rows.map
      (fun row => rowGet row (rootPkKey m pk)))).length →
      alookup ((((firstSeen (rows.map (fun row => rowGet row (rootPkKey m pk)))).map
          (fun v => buildMapped m rels (v, rowsOfGroup rows (rootPkKey m pk) v))).getD
            i default).rels) r.propertyKey
        = some (.many ((rowsOfGroup rows (rootPkKey m pk)
            ((firstSeen (rows.map (fun row => rowGet row (rootPkKey m pk)))).getD
              i .vUndefined)).filterMap (fun row =>
          if rowGet row (rootPkKey r.target tpk) = .vNull then none
          else some (extractRelationalRecord row r.target)))) := by
    intro i hi
    rw [getD_map_lt _ _ i hi .vUndefined default]
    have hlook := alookup_relationEntries
      (rowsOfGroup rows (rootPkKey m pk)
        ((firstSeen (rows.map (fun row => rowGet row (rootPkKey m pk)))).getD
          i .vUndefined)) rels (r, tpk) hrtmem hrelnd
    rw [show (buildMapped m rels
        (((firstSeen (rows.map (fun row => rowGet row (rootPkKey m pk)))).getD
            i .vUndefined),
          rowsOfGroup rows (rootPkKey m pk)
            ((firstSeen (rows.map (fun row => rowGet row (rootPkKey m pk)))).getD
              i .vUndefined))).rels
        = rels.map (relationEntry (rowsOfGroup rows (rootPkKey m pk)
            ((firstSeen (rows.map (fun row => rowGet row (rootPkKey m pk)))).getD
              i .vUndefined))) from rfl]
    rw [hlook]
    simp only [relationValueOf, hty]
    rfl
  refine ⟨_, hmre, ?_, hlen, fun i hi => hmain i (by rw [hlen] at hi; exact hi), ?_⟩
  · rw [List.map_map]
    refine List.map_congr_left ?_
    intro v hv
    have hbase : alookup (buildMapped m rels
        (v, rowsOfGroup rows (rootPkKey m pk) v)).base pk.propertyKey
        = some (rowGet ((rowsOfGroup rows (rootPkKey m pk) v).headD [])
            (extractReadKey m pk)) :=
      alookup_extract _ m pk hpkmem hkeys
    have hhead : rowGet ((rowsOfGroup rows (rootPkKey m pk) v).headD [])
        (rootPkKey m pk) = v :=
      rowGet_headD_filter rows (rootPkKey m pk) v ((mem_firstSeen_iff _ _).mp hv)
    show alookup (buildMapped m rels
        (v, rowsOfGroup rows (rootPkKey m pk) v)).base pk.propertyKey = some v
    rw [hbase]
    rw [show extractReadKey m pk = rootPkKey m pk from rfl, hhead]
  · intro i hi hnull
    rw [hlen] at hi
    rw [hmain i hi]
    have hnil : (rowsOfGroup rows (rootPkKey m pk)
        ((firstSeen (rows.map (fun row => rowGet row (rootPkKey m pk)))).getD
          i .vUndefined)).filterMap (fun row =>
        if rowGet row (rootPkKey r.target tpk) = .vNull then none
        else some (extractRelationalRecord row r.target)) = [] := by
      refine List.filterMap_eq_nil_iff.mpr ?_
      intro row hrow
      rw [if_pos (hnull row hrow)]
    rw [hnil]

/-- C1 witness: the `mapRelationalResult` HasMany fixture — three users in
first-seen order; user 3, joined only to a null product row, gets
`products = []` (never null, never a placeholder). -/
theorem mapRelationalResult_hasMany_grouping_witness :
    ∃ out, mapRelationalResult UserSchema [userProductsRel] ["products"]
        hasManyTestRows = .ok out ∧
      out.map (fun rec => alookup rec.base "id")
        = [some (.vNum 1), some (.vNum 2), some (.vNum 3)] ∧
      out.length = 3 ∧
      alookup (out.getD 0 default).rels "products"
        = some (.many [[("id", .vNum 1), ("title", .vStr "Spoon")],
            [("id", .vNum 2), ("title", .vStr "Rice")]]) ∧
      alookup (out.getD 2 default).rels "products" = some (.many []) := by
  obtain ⟨out, h1, h2, h3, h4, h5⟩ :=
    mapRelationalResult_hasMany_grouping UserSchema [userProductsRel]
      ["products"] hasManyTestRows idField idField userProductsRel
      [(userProductsRel, idField)] (by decide) (by decide) (by decide)
      (by decide) (by decide) (by decide) (by decide) (by decide)
  refine ⟨out, h1, ?_, ?_, ?_, ?_⟩
  · show out.map (fun rec => alookup rec.base idField.propertyKey)
        = [some (.vNum 1), some (.vNum 2), some (.vNum 3)]
    rw [h2]
    decide
  · rw [h3]
    decide
  · show alookup (out.getD 0 default).rels userProductsRel.propertyKey = _
    rw [h4 0 (by rw [h3]; decide)]
    decide
  · exact h5 2 (by rw [h3]; decide) (by decide)

/-- C2: `mapRelationalResult` with an included BelongsTo relation sets the
relation field of each emitted root to the first group row's extracted
related record, and to `null` exactly when the related primary-key column is
null in that first row; the non-null case is the single extracted record
(`single`, a plain object — never a sequence). -/
theorem mapRelationalResult_belongsTo_null_iff (m : ModelSchema)
    (relations : List RelationDescriptor) (includes : List String)
    (rows : List Row) (pk tpk : FieldDescriptor) (r : RelationDescriptor)
    (rels : List (RelationDescriptor × FieldDescriptor))
    (hpk : getPrimaryKeyInfo m = some pk)
    (hres : resolveRels (relations.filter
      (fun x => includes.contains x.propertyKey)) = some rels)
    (hrnd : ((relations.filter (fun x => includes.contains x.propertyKey)).map
      (fun x => x.propertyKey)).Nodup)
    (hr : r ∈ relations) (hin : includes.contains r.propertyKey = true)
    (hty : r.type = .belongsTo)
    (htpk : getPrimaryKeyInfo r.target = some tpk) :
    ∃ out, mapRelationalResult m relations includes rows = .ok out ∧
      out.length = (firstSeen (rows.map
        (fun row => rowGet row (rootPkKey m pk)))).length ∧
      (∀ i, i < out.length →
        alookup (out.getD i default).rels r.propertyKey
          = some (if rowGet ((rowsOfGroup rows (rootPkKey m pk)
                ((firstSeen (rows.map (fun row => rowGet row
                  (rootPkKey m pk)))).getD i .vUndefined)).headD [])
                (rootPkKey r.target tpk) = .vNull
              then .vnull
              else .single (extractRelationalRecord
                ((rowsOfGroup rows (rootPkKey m pk)
                  ((firstSeen (rows.map (fun row => rowGet row
                    (rootPkKey m pk)))).getD i .vUndefined)).headD [])
                r.target))) ∧
      (∀ i, i < out.length →
        (alookup (out.getD i default).rels r.propertyKey = some .vnull ↔
          rowGet ((rowsOfGroup rows (rootPkKey m pk)
              ((firstSeen (rows.map (fun row => rowGet row
                (rootPkKey m pk)))).getD i .vUndefined)).headD [])
            (rootPkKey r.target tpk) = .vNull)) := by
  have hmre := mapRelationalResult_eq m relations includes rows pk rels hpk hres
  have hrtmem : (r, tpk) ∈ rels :=
    mem_resolved relations includes r tpk rels hres hr hin htpk
  have hrelnd : (rels.map (fun x => x.1.propertyKey)).Nodup :=
    rels_key_nodup relations includes rels hres hrnd
  have hlen : ((firstSeen (rows.map (fun row => rowGet row (rootPkKey m pk)))).map
      (fun v => buildMapped m rels (v, rowsOfGroup rows (rootPkKey m pk) v))).length
      = (firstSeen (rows.map (fun row => rowGet row (rootPkKey m pk)))).length :=
    List.length_map _ _
  have hmain : ∀ i, i < (firstSeen (rows.map
      (fun row => rowGet row (rootPkKey m pk)))).length →
      alookup ((((firstSeen (rows.map (fun row => rowGet row (rootPkKey m pk)))).map
          (fun v => buildMapped m rels (v, rowsOfGroup rows (rootPkKey m pk) v))).getD
            i default).rels) r.propertyKey
        = some (if rowGet ((rowsOfGroup rows (rootPkKey m pk)
              ((firstSeen (rows.map (fun row => rowGet row
                (rootPkKey m pk)))).getD i .vUndefined)).headD [])
              (rootPkKey r.target tpk) = .vNull
            then .vnull
            else .single (extractRelationalRecord
              ((rowsOfGroup rows (rootPkKey m pk)
                ((firstSeen (rows.map (fun row => rowGet row
                  (rootPkKey m pk)))).getD i .vUndefined)).headD [])
              r.target)) := by
    intro i hi
    rw [getD_map_lt _ _ i hi .vUndefined default]
    have hlook := alookup_relationEntries
      (rowsOfGroup rows (rootPkKey m pk)
        ((firstSeen (rows.map (fun row => rowGet row (rootPkKey m pk)))).getD
          i .vUndefined)) rels (r, tpk) hrtmem hrelnd
    rw [show (buildMapped m rels
        (((firstSeen (rows.map (fun row => rowGet row (rootPkKey m pk)))).getD
            i .vUndefined),
          rowsOfGroup rows (rootPkKey m pk)
            ((firstSeen (rows.map (fun row => rowGet row (rootPkKey m pk)))).getD
              i .vUndefined))).rels
        = rels.map (relationEntry (rowsOfGroup rows (rootPkKey m pk)
            ((firstSeen (rows.map (fun row => rowGet row (rootPkKey m pk)))).getD
              i .vUndefined))) from rfl]
    rw [hlook]
    simp only [relationValueOf, hty]
    rfl
  refine ⟨_, hmre, hlen,
    fun i hi => hmain i (by rw [hlen] at hi; exact hi), ?_⟩
  intro i hi
  rw [hlen] at hi
  rw [hmain i hi]
  by_cases hnull : rowGet ((rowsOfGroup rows (rootPkKey m pk)
      ((firstSeen (rows.map (fun row => rowGet row (rootPkKey m pk)))).getD
        i .vUndefined)).headD []) (rootPkKey r.target tpk) = .vNull
  · rw [if_pos hnull]
    exact iff_of_true rfl hnull
  · rw [if_neg hnull]
    exact iff_of_false (by simp) hnull

/-- C2 witness: the `mapRelationalResult` BelongsTo fixture — products 1 and
2 carry their populated `user` object; product 3, whose `users__id` is null,
carries `user = null`. -/
theorem mapRelationalResult_belongsTo_null_iff_witness :
    ∃ out, mapRelationalResult ProductSchema [productUserRel] ["user"]
        belongsToTestRows = .ok out ∧
      out.length = 3 ∧
      alookup (out.getD 0 default).rels "user"
        = some (.single [("id", .vNum 1), ("email", .vStr "a@b.com"),
            ("age", .vNum 16)]) ∧
      alookup (out.getD 2 default).rels "user" = some .vnull ∧
      ¬ (alookup (out.getD 0 default).rels "user" = some .vnull) := by
  obtain ⟨out, h1, h2, h3, h4⟩ :=
    mapRelationalResult_belongsTo_null_iff ProductSchema [productUserRel]
      ["user"] belongsToTestRows idField idField productUserRel
      [(productUserRel, idField)] (by decide) (by decide) (by decide)
      (by decide) (by decide) (by decide) (by decide)
  refine ⟨out, h1, ?_, ?_, ?_, ?_⟩
  · rw [h2]
    decide
  · show alookup (out.getD 0 default).rels productUserRel.propertyKey = _
    rw [h3 0 (by rw [h2]; decide)]
    decide
  · exact (h4 2 (by rw [h2]; decide)).mpr (by decide)
  · intro hcon
    have hmp := (h4 0 (by rw [h2]; decide)).mp hcon
    exact absurd hmp (by decide)

theorem mapM_ok_mem {α β : Type} (l : List α) (f : α → Except ModelError β)
    (out : List β) (h : l.mapM f = .ok out) : ∀ x ∈ l, ∃ y, f x = .ok y := by
  induction l generalizing out with
  | nil => simp
  | cons a rest ih =>
    rw [List.mapM_cons] at h
    cases hfa : f a with
    | error e =>
      rw [hfa] at h
      cases h
    | ok b =>
      rw [hfa] at h
      replace h : rest.mapM f >>= (fun bs => pure (b :: bs)) = .ok out := h
      cases hrest : rest.mapM f with
      | error e =>
        rw [hrest] at h
        cases h
      | ok bs =>
        intro x hx
        rw [List.mem_cons] at hx
        rcases hx with rfl | hx
        · exact ⟨b, hfa⟩
        · exact ih bs hrest x hx

theorem getD_mem {α : Type} (l : List α) (i : Nat) (d : α) (h : i < l.length) :
    l.getD i d ∈ l := by
  rw [List.getD_eq_getElem l d h]
  exact List.getElem_mem h

/-- The shared skeleton of `_bulkSave`: one multi-row insert is issued, the
last inserted identifier `L` is taken from the dialect-dependent source, and
the run `range (L + 1 - N) L` is assigned positionally, marking each model
saved with a freshly captured snapshot. -/
theorem bulkSave_assigns (m : ModelSchema) (dialect : String)
    (lastInsertedId : Int) (insertResult : List Row)
    (models : List ModelInstance) (vals : List (List (String × Value)))
    (pk : FieldDescriptor) (L : Int)
    (hpk : getPrimaryKeyInfo m = some pk)
    (hs : ∀ mo ∈ models, mo.schema = m)
    (hv : models.mapM (fun mo => getValues mo none) = .ok vals)
    (hL : (if dialect = "postgres" then
        (match rowGet ((insertResult.getLast?).getD []) pk.name with
          | .vNum n => n
          | _ => 0)
      else lastInsertedId) = L) :
    ∃ out, bulkSave m dialect lastInsertedId insertResult models
        = .ok (out, [DbOp.insertOp m.tableName vals
            (if dialect = "postgres" then some pk.name else none)]) ∧
      out.length = models.length ∧
      ∀ i, i < models.length →
        getField (out.getD i default) pk.propertyKey
          = .vNum (L + 1 - models.length + i) ∧
        (out.getD i default).saved = true ∧
        ∃ snap, getValues (setPrimaryKey (models.getD i default)
            (.vNum (L + 1 - models.length + i))) none = .ok snap ∧
          (out.getD i default).original = some snap := by
  have harith : L - (L + 1 - (models.length : Int)) + 1
      = (models.length : Int) := by ring
  have hidlen : (range (L + 1 - models.length) L).length = models.length := by
    rw [range_length, harith, Int.toNat_natCast]
  have hok : ∀ mi ∈ models.zip (range (L + 1 - models.length) L), ∃ y,
      setSaved (setPrimaryKey mi.1 (.vNum mi.2)) true = .ok y := by
    intro mi hmi
    have hmo : mi.1 ∈ models := (List.of_mem_zip hmi).1
    obtain ⟨v0, hv0⟩ := mapM_ok_mem models _ vals hv mi.1 hmo
    have hset : setPrimaryKey mi.1 (.vNum mi.2)
        = setField mi.1 pk.propertyKey (.vNum mi.2) := by
      rw [setPrimaryKey, hs mi.1 hmo, hpk]
    obtain ⟨v1, hv1⟩ := getValues_setField mi.1 pk.propertyKey (.vNum mi.2)
      none v0 (by intro hcon; cases hcon) hv0
    rw [hset]
    exact ⟨_, setSaved_true _ v1 hv1⟩
  obtain ⟨out, hmapM⟩ := mapM_ok_exists _ _ hok
  have hzlen : (models.zip (range (L + 1 - models.length) L)).length
      = models.length := by
    rw [List.length_zip, hidlen, Nat.min_self]
  obtain ⟨holen, hpt⟩ := mapM_ok_getD (default, 0) default _ _ out hmapM
  have hbody : bulkSave m dialect lastInsertedId insertResult models
      = ((models.zip (range ((if dialect = "postgres" then
            (match rowGet ((insertResult.getLast?).getD []) pk.name with
              | .vNum n => n
              | _ => 0)
          else lastInsertedId) + 1 - models.length)
          (if dialect = "postgres" then
            (match rowGet ((insertResult.getLast?).getD []) pk.name with
              | .vNum n => n
              | _ => 0)
          else lastInsertedId))).mapM
        (fun mi => setSaved (setPrimaryKey mi.1 (.vNum mi.2)) true)) >>=
        (fun out2 => pure (out2, [DbOp.insertOp m.tableName vals
          (if dialect = "postgres" then some pk.name else none)])) := by
    unfold bulkSave
    rw [hv]
    generalize hg : getPrimaryKeyInfo m = o
    rw [hg] at hpk
    subst hpk
    rfl
  rw [hL] at hbody
  rw [hmapM] at hbody
  refine ⟨out, hbody.trans rfl, by rw [holen, hzlen], ?_⟩
  intro i hi
  have hi2 : i < (models.zip (range (L + 1 - models.length) L)).length := by
    rw [hzlen]
    exact hi
  have hf := hpt i hi2
  rw [zip_getD default 0 _ _ i (by exact hi) (by rw [hidlen]; exact hi)] at hf
  have hid : (range (L + 1 - models.length) L).getD i 0
      = L + 1 - models.length + i := by
    rw [range_getD _ _ i (by rw [harith, Int.toNat_natCast]; exact hi)]
  rw [hid] at hf
  cases hsnap : getValues (setPrimaryKey (models.getD i default)
      (.vNum (L + 1 - models.length + i))) none with
  | error e =>
    rw [setSaved, if_pos rfl, hsnap] at hf
    cases hf
  | ok snap =>
    rw [setSaved_true _ snap hsnap] at hf
    have hout : out.getD i default = ModelInstance.mk
        (setPrimaryKey (models.getD i default)
          (.vNum (L + 1 - models.length + i))).schema
        (setPrimaryKey (models.getD i default)
          (.vNum (L + 1 - models.length + i))).values
        true (some snap) := by
      have hf2 : (Except.ok (ModelInstance.mk
          (setPrimaryKey (models.getD i default)
            (.vNum (L + 1 - models.length + i))).schema
          (setPrimaryKey (models.getD i default)
            (.vNum (L + 1 - models.length + i))).values
          true (some snap)) : Except ModelError ModelInstance)
          = .ok (out.getD i default) := hf
      exact (Except.ok.inj hf2).symm
    have hmo : models.getD i default ∈ models := getD_mem models i default hi
    have hset : setPrimaryKey (models.getD i default)
        (.vNum (L + 1 - models.length + i))
        = setField (models.getD i default) pk.propertyKey
            (.vNum (L + 1 - models.length + i)) := by
      rw [setPrimaryKey, hs _ hmo, hpk]
    refine ⟨?_, by rw [hout], ⟨snap, rfl, by rw [hout]⟩⟩
    have hgf : getField (out.getD i default) pk.propertyKey
        = getField (setPrimaryKey (models.getD i default)
            (.vNum (L + 1 - models.length + i))) pk.propertyKey := by
      rw [hout]
      rfl
    rw [hgf, hset, getField_setField, if_pos rfl]

/-- C4: under an engine that reports a single last-inserted identifier (any
dialect other than postgres), a bulk insert of N models issues one multi-row
insert with no returning clause and assigns the contiguous ascending run
ending at that identifier — the i-th model (0-based) receives
`lastInsertedId + 1 - N + i` — marking every model saved with a freshly
captured snapshot. -/
theorem bulkSave_contiguous_assignment (m : ModelSchema) (dialect : String)
    (lastInsertedId : Int) (insertResult : List Row)
    (models : List ModelInstance) (vals : List (List (String × Value)))
    (pk : FieldDescriptor)
    (hd : dialect ≠ "postgres")
    (hpk : getPrimaryKeyInfo m = some pk)
    (hs : ∀ mo ∈ models, mo.schema = m)
    (hv : models.mapM (fun mo => getValues mo none) = .ok vals) :
    ∃ out, bulkSave m dialect lastInsertedId insertResult models
        = .ok (out, [DbOp.insertOp m.tableName vals none]) ∧
      out.length = models.length ∧
      ∀ i, i < models.length →
        getField (out.getD i default) pk.propertyKey
          = .vNum (lastInsertedId + 1 - models.length + i) ∧
        (out.getD i default).saved = true ∧
        ∃ snap, getValues (setPrimaryKey (models.getD i default)
            (.vNum (lastInsertedId + 1 - models.length + i))) none = .ok snap ∧
          (out.getD i default).original = some snap := by
  have h := bulkSave_assigns m dialect lastInsertedId insertResult models vals
    pk lastInsertedId hpk hs hv (by rw [if_neg hd])
  rw [if_neg hd] at h
  exact h

/-- C4 witness: bulk insert of 3 items with last inserted identifier 10
assigns 8, 9, 10 in original order and marks all 3 saved. -/
theorem bulkSave_contiguous_assignment_witness :
    ∃ out, bulkSave ItemSchema "sqlite" 10 [] [itemA, itemB, itemC]
        = .ok (out, [DbOp.insertOp "items"
            [[("id", .vNull), ("title", .vStr "a")],
             [("id", .vNull), ("title", .vStr "b")],
             [("id", .vNull), ("title", .vStr "c")]] none]) ∧
      out.length = 3 ∧
      getField (out.getD 0 default) "id" = .vNum 8 ∧
      getField (out.getD 1 default) "id" = .vNum 9 ∧
      getField (out.getD 2 default) "id" = .vNum 10 ∧
      (out.getD 0 default).saved = true ∧
      (out.getD 1 default).saved = true ∧
      (out.getD 2 default).saved = true := by
  obtain ⟨out, h1, h2, h3⟩ :=
    bulkSave_contiguous_assignment ItemSchema "sqlite" 10 [] [itemA, itemB, itemC]
      [[("id", .vNull), ("title", .vStr "a")],
       [("id", .vNull), ("title", .vStr "b")],
       [("id", .vNull), ("title", .vStr "c")]] nullableIdField
      (by decide) (by decide) (by decide) (by rfl)
  obtain ⟨ha0, hb0, -⟩ := h3 0 (by decide)
  obtain ⟨ha1, hb1, -⟩ := h3 1 (by decide)
  obtain ⟨ha2, hb2, -⟩ := h3 2 (by decide)
  refine ⟨out, h1, by rw [h2]; rfl, ?_, ?_, ?_, hb0, hb1, hb2⟩
  · exact (show Value.vNum (10 + 1 - ([itemA, itemB, itemC].length : Int)
      + ((0 : Nat) : Int)) = .vNum 8 by decide) ▸ ha0
  · exact (show Value.vNum (10 + 1 - ([itemA, itemB, itemC].length : Int)
      + ((1 : Nat) : Int)) = .vNum 9 by decide) ▸ ha1
  · exact (show Value.vNum (10 + 1 - ([itemA, itemB, itemC].length : Int)
      + ((2 : Nat) : Int)) = .vNum 10 by decide) ▸ ha2

/-- C5 counterexample: under the postgres dialect with returning rows whose
identifiers are 5 and 10, `_bulkSave` does not consume the returned
identifiers positionally — the first model receives 9 (computed from the
range ending at the last returned identifier 10), not the first returned
identifier 5. -/
theorem bulkSave_postgres_not_positional :
    (bulkSave ItemSchema "postgres" 0
        [[("id", Value.vNum 5)], [("id", Value.vNum 10)]]
        [itemA, itemB]).map (fun x => x.1.map (fun mo => getField mo "id"))
      = .ok [.vNum 9, .vNum 10] ∧
    Value.vNum 9 ≠ Value.vNum 5 := by
  exact ⟨rfl, by decide⟩

/-- C5 amended: for the postgres dialect `_bulkSave` adds a returning clause
but then uses only the LAST returned row's primary-key value `L` as the last
inserted identifier and still performs the contiguous-range computation: the
i-th model receives `L + 1 - N + i`, not the i-th returned identifier. -/
theorem bulkSave_postgres_uses_last_returned (m : ModelSchema)
    (lastInsertedId : Int) (insertResult : List Row)
    (models : List ModelInstance) (vals : List (List (String × Value)))
    (pk : FieldDescriptor) (L : Int)
    (hpk : getPrimaryKeyInfo m = some pk)
    (hs : ∀ mo ∈ models, mo.schema = m)
    (hv : models.mapM (fun mo => getValues mo none) = .ok vals)
    (hlast : rowGet ((insertResult.getLast?).getD []) pk.name = .vNum L) :
    ∃ out, bulkSave m "postgres" lastInsertedId insertResult models
        = .ok (out, [DbOp.insertOp m.tableName vals (some pk.name)]) ∧
      out.length = models.length ∧
      ∀ i, i < models.length →
        getField (out.getD i default) pk.propertyKey
          = .vNum (L + 1 - models.length + i) := by
  have h := bulkSave_assigns m "postgres" lastInsertedId insertResult models
    vals pk L hpk hs hv (by rw [if_pos rfl, hlast])
  rw [if_pos rfl] at h
  obtain ⟨out, h1, h2, h3⟩ := h
  exact ⟨out, h1, h2, fun i hi => (h3 i hi).1⟩

/-- C5 witness (of the amended claim): with returned identifiers 5 and 10,
the two models receive 9 and 10 — the range ending at the last returned
identifier. -/
theorem bulkSave_postgres_uses_last_returned_witness :
    ∃ out, bulkSave ItemSchema "postgres" 0
        [[("id", Value.vNum 5)], [("id", Value.vNum 10)]] [itemA, itemB]
        = .ok (out, [DbOp.insertOp "items"
            [[("id", .vNull), ("title", .vStr "a")],
             [("id", .vNull), ("title", .vStr "b")]] (some "id")]) ∧
      out.length = 2 ∧
      getField (out.getD 0 default) "id" = .vNum 9 ∧
      getField (out.getD 1 default) "id" = .vNum 10 := by
  obtain ⟨out, h1, h2, h3⟩ :=
    bulkSave_postgres_uses_last_returned ItemSchema 0
      [[("id", Value.vNum 5)], [("id", Value.vNum 10)]] [itemA, itemB]
      [[("id", .vNull), ("title", .vStr "a")],
       [("id", .vNull), ("title", .vStr "b")]] nullableIdField 10
      (by decide) (by decide) (by rfl) (by decide)
  refine ⟨out, h1, by rw [h2]; rfl, ?_, ?_⟩
  · exact (show Value.vNum (10 + 1 - ([itemA, itemB].length : Int)
      + ((0 : Nat) : Int)) = .vNum 9 by decide) ▸ h3 0 (by decide)
  · exact (show Value.vNum (10 + 1 - ([itemA, itemB].length : Int)
      + ((1 : Nat) : Int)) = .vNum 10 by decide) ▸ h3 1 (by decide)

/-- C6 counterexample: the bulk insert path writes an un-normalized value.
`rawPost.likes` holds the numeric string `"16"`; `_bulkSave` issues an
insert whose data still contains the string `"16"`, although normalization
would have coerced it to the number 16 — so it is not the case that
normalize runs before every write. -/
theorem bulkSave_writes_unnormalized :
    (bulkSave PostSchema "sqlite" 1 [] [rawPost]).map (fun x => x.2)
      = .ok [DbOp.insertOp "posts"
          [[("id", .vNum 1), ("likes", .vStr "16")]] none] ∧
    normalizeValue .number (.vStr "16") ≠ .vStr "16" := by
  exact ⟨rfl, by decide⟩

/-- C6 amended: `save()` applies `normalizeModel` to the instance before
either of its writes — it cannot distinguish a raw instance from its
normalized form (`save` is invariant under pre-normalization), and on the
`rawPost` example the single-record insert writes the coerced number 16 —
while the bulk insert path performs no normalization and writes the raw
string `"16"` for the same instance. -/
theorem save_normalizes_bulkSave_does_not :
    (∀ (dialect : String) (lastId : Int) (res : List Row)
        (inst : ModelInstance),
      (inst.schema.fields.map (fun f => f.propertyKey)).Nodup →
      save dialect lastId res inst = save dialect lastId res
        (normalizeModel inst)) ∧
    (save "sqlite" 5 [] rawPost).map (fun x => x.2)
      = .ok [DbOp.insertOp "posts"
          [[("id", .vNum 1), ("likes", .vNum 16)]] none] ∧
    (bulkSave PostSchema "sqlite" 1 [] [rawPost]).map (fun x => x.2)
      = .ok [DbOp.insertOp "posts"
          [[("id", .vNum 1), ("likes", .vStr "16")]] none] ∧
    normalizeValue .number (.vStr "16") = .vNum 16 := by
  refine ⟨?_, rfl, rfl, rfl⟩
  intro dialect lastId res inst hnd
  show saveNormalized dialect lastId res (normalizeModel inst)
      = saveNormalized dialect lastId res (normalizeModel (normalizeModel inst))
  rw [normalizeModel_idem inst hnd]

/-- C10 counterexample: `savedRawPost` is saved and `compareWithOriginal`
reports it clean (its raw string `"16"` equals the snapshot's `"16"`), yet
`save()` first normalizes the instance in place — which changes the `likes`
field from the string `"16"` to the number 16, makes the instance dirty
against its snapshot, issues an update statement, and re-captures the
snapshot.  So a clean save is not free of writes and does not leave field
values or the snapshot unchanged. -/
theorem save_clean_raw_post_updates :
    isSaved savedRawPost = true ∧
    compareWithOriginal savedRawPost = .ok ⟨false, []⟩ ∧
    (save "sqlite" 0 [] savedRawPost).map (fun x => x.2)
      = .ok [DbOp.updateOp "posts" "id" (.vNum 1) [("likes", .vNum 16)]] ∧
    (save "sqlite" 0 [] savedRawPost).map (fun x => getField x.1 "likes")
      = .ok (.vNum 16) ∧
    getField savedRawPost "likes" = .vStr "16" ∧
    (save "sqlite" 0 [] savedRawPost).map (fun x => x.1.original)
      = .ok (some [("id", .vNum 1), ("likes", .vNum 16)]) ∧
    savedRawPost.original = some [("id", .vNum 1), ("likes", .vStr "16")] := by
  exact ⟨rfl, rfl, rfl, rfl, rfl, rfl, rfl⟩

theorem exceptBind_ok {α β : Type} (a : α) (f : α → Except ModelError β) :
    ((Except.ok a : Except ModelError α) >>= f) = f a := rfl

/-- An association list whose keys are the fields' column names in order and
whose lookups agree with `val` is the canonical map. -/
theorem assoc_eq_of_lookups (fields : List FieldDescriptor)
    (val : FieldDescriptor → Value) (l : List (String × Value))
    (hshape : l.map Prod.fst = fields.map (fun f => f.name))
    (hnames : (fields.map (fun f => f.name)).Nodup)
    (hlook : ∀ f ∈ fields, alookup l f.name = some (val f)) :
    l = fields.map (fun f => (f.name, val f)) := by
  induction fields generalizing l with
  | nil =>
    cases l with
    | nil => rfl
    | cons p l2 => simp at hshape
  | cons f rest ih =>
    cases l with
    | nil => simp at hshape
    | cons p l2 =>
      obtain ⟨k, b⟩ := p
      rw [List.map_cons, List.map_cons] at hshape
      have hk : k = f.name := by
        have := congrArg (fun x => x.headD "") hshape
        simpa using this
      subst hk
      rw [List.map_cons, List.nodup_cons] at hnames
      have hb : b = val f := by
        have hl := hlook f (List.mem_cons_self f rest)
        rw [alookup, if_pos rfl] at hl
        exact Option.some.inj hl
      subst hb
      have htail : l2 = rest.map (fun f => (f.name, val f)) := by
        refine ih l2 (by simpa using hshape) hnames.2 ?_
        intro g hg
        have hgname : g.name ≠ f.name := by
          intro he
          exact hnames.1 (he ▸ List.mem_map_of_mem (fun x => x.name) hg)
        have hl := hlook g (List.mem_cons_of_mem f hg)
        rw [alookup, if_neg hgname] at hl
        exact hl
      rw [htail]
      rfl

/-- C10 amended: on a saved instance that `compareWithOriginal` reports
clean and whose field values are already normalized, `save()` issues no
statement to the adapter, leaves every field value, the primary key and the
snapshot unchanged, and leaves the saved flag true.  (Without the
already-normalized proviso the claim fails: `save` normalizes in place
first, see the counterexample.) -/
theorem save_clean_normalized_noop (inst : ModelInstance) (dialect : String)
    (lastId : Int) (res : List Row) (pk : FieldDescriptor)
    (snap : List (String × Value))
    (hpk : getPrimaryKeyInfo inst.schema = some pk)
    (hkeys : (inst.schema.fields.map (fun f => f.propertyKey)).Nodup)
    (hnames : (inst.schema.fields.map (fun f => f.name)).Nodup)
    (hsaved : inst.saved = true)
    (hsnap : inst.original = some snap)
    (hshape : snap.map Prod.fst = inst.schema.fields.map (fun f => f.name))
    (hnorm : ∀ f ∈ inst.schema.fields,
      normalizeValue f.type (getField inst f.propertyKey)
        = getField inst f.propertyKey)
    (hclean : compareWithOriginal inst = .ok ⟨false, []⟩) :
    ∃ inst2, save dialect lastId res inst = .ok (inst2, []) ∧
      (∀ p, getField inst2 p = getField inst p) ∧
      inst2.original = inst.original ∧
      inst2.saved = true ∧
      getPrimaryKey inst2 = getPrimaryKey inst := by
  -- Extract the clean comparison's column values.
  rw [compareWithOriginal, hsnap] at hclean
  cases hv : getValues inst none with
  | error e =>
    rw [hv] at hclean
    cases hclean
  | ok vals =>
    rw [hv] at hclean
    have hcmp := Except.ok.inj hclean
    have hchanged : (inst.schema.fields.filter (fun f =>
        decide (alookup vals f.name ≠ alookup snap f.name))).map
          (fun f => f.propertyKey) = [] :=
      congrArg CompareResult.changedFields hcmp
    have hfilter : inst.schema.fields.filter (fun f =>
        decide (alookup vals f.name ≠ alookup snap f.name)) = [] :=
      List.map_eq_nil.mp hchanged
    have hagree : ∀ f ∈ inst.schema.fields,
        alookup vals f.name = alookup snap f.name := by
      intro f hf
      by_contra hne
      have := List.filter_eq_nil_iff.mp hfilter f hf
      exact this (decide_eq_true hne)
    obtain ⟨hall, hvals⟩ := (getValues_ok_iff inst none vals).mp hv
    -- Normalization does not move any field value.
    have hgf : ∀ p, getField (normalizeModel inst) p = getField inst p := by
      intro p
      by_cases hp : p ∈ inst.schema.fields.map (fun f => f.propertyKey)
      · obtain ⟨f, hf, hfp⟩ := List.mem_map.mp hp
        rw [← hfp, getField_normalizeModel_mem inst f hf hkeys, hnorm f hf]
      · exact getField_normalizeModel_notMem inst p hp
    have hvNM : getValues (normalizeModel inst) none = .ok vals := by
      refine Eq.trans ((getValues_ok_iff (normalizeModel inst) none _).mpr
        ⟨?_, rfl⟩) ?_
      · intro f hf
        rw [hgf f.propertyKey]
        exact hall f hf
      · rw [hvals]
        congr 1
        refine List.map_congr_left ?_
        intro f hf
        rw [hgf f.propertyKey]
    -- The snapshot is exactly the current column values.
    have hlooks : ∀ f ∈ inst.schema.fields, alookup snap f.name
        = some (matValue f (getField inst f.propertyKey)) := by
      intro f hf
      rw [← hagree f hf, hvals]
      exact alookup_map_key _ (fun x => x.name)
        (fun x => matValue x (getField inst x.propertyKey)) f hf hnames
    have hsnapeq : snap = inst.schema.fields.map
        (fun f => (f.name, matValue f (getField inst f.propertyKey))) :=
      assoc_eq_of_lookups inst.schema.fields _ snap hshape hnames hlooks
    have hvalssnap : vals = snap := by
      rw [hvals, hsnapeq]
      rfl
    -- The comparison after normalization is also clean.
    have hcmpNM : compareWithOriginal (normalizeModel inst)
        = .ok ⟨false, []⟩ := by
      have horig : (normalizeModel inst).original = some snap := by
        rw [normalizeModel_original, hsnap]
      rw [compareWithOriginal_some (normalizeModel inst) snap vals horig hvNM]
      have hfields : (normalizeModel inst).schema.fields
          = inst.schema.fields := rfl
      rw [hfields, hfilter]
      rfl
    -- Reduce `save`.
    have hset : setSaved (normalizeModel inst) true
        = .ok (ModelInstance.mk (normalizeModel inst).schema
            (normalizeModel inst).values true (some vals)) :=
      setSaved_true (normalizeModel inst) vals hvNM
    have hsave : save dialect lastId res inst
        = .ok (ModelInstance.mk (normalizeModel inst).schema
            (normalizeModel inst).values true (some vals), []) := by
      show saveNormalized dialect lastId res (normalizeModel inst) = _
      rw [saveNormalized]
      rw [show getPrimaryKeyInfo (normalizeModel inst).schema
          = some pk from hpk]
      rw [show isSaved (normalizeModel inst) = true from hsaved]
      simp only [if_pos rfl, hcmpNM, exceptBind_ok]
      rw [hset]
      rfl
    refine ⟨_, hsave, ?_, ?_, rfl, ?_⟩
    · intro p
      exact hgf p
    · show some vals = inst.original
      rw [hvalssnap, hsnap]
    · show getPrimaryKey (ModelInstance.mk (normalizeModel inst).schema
          (normalizeModel inst).values true (some vals)) = getPrimaryKey inst
      rw [getPrimaryKey, getPrimaryKey]
      rw [show getPrimaryKeyInfo (ModelInstance.mk (normalizeModel inst).schema
          (normalizeModel inst).values true (some vals)).schema
        = some pk from hpk]
      rw [hpk]
      exact hgf pk.propertyKey

/-- C10 witness: saving the clean, already-normalized `normalizedSavedPost`
issues no statement and changes nothing. -/
theorem save_clean_normalized_noop_witness :
    ∃ inst2, save "sqlite" 0 [] normalizedSavedPost = .ok (inst2, []) ∧
      (∀ p, getField inst2 p = getField normalizedSavedPost p) ∧
      inst2.original = normalizedSavedPost.original ∧
      inst2.saved = true ∧
      getPrimaryKey inst2 = getPrimaryKey normalizedSavedPost := by
  exact save_clean_normalized_noop normalizedSavedPost "sqlite" 0 []
    nullableIdField [("id", .vNum 1), ("likes", .vNum 16)]
    (by decide) (by decide) (by decide) rfl rfl (by decide) (by decide) (by rfl)

end Cotton
